import Mathlib

/-!
# Verification of the calicoctl `ipam check` reconciler

Shallow embedding of `calicoctl/commands/ipam/release.go` (the `ipam check`
subcommand): the `IPAMChecker` state, the allocation / in-use indexes, the
block, pool, node and workload-endpoint loading phases, the classification
scans and the summary output, together with proofs of the spec's claims
about them.

Go maps are embedded as association lists (entries kept in insertion
order); a Go `map[string][]T` built only by `append` is represented by the
flat entry list, and key lookup collects all entries with the key.
Go slice indexing with an `int` is embedded by `goIndex`, which returns
`none` exactly when the Go program would panic (index out of range).
Runtime panics and `error` returns are both embedded in `Except CheckError`.
-/

namespace Calico

/-- Go slice indexing `l[i]` with an `int` index: `none` models the runtime
panic when `i` is negative or past the end. -/
def goIndex {α : Type} (l : List α) (i : Int) : Option α :=
  if i < 0 then none else l.get? i.toNat

/-- Whether a Go map (as entry list) has an entry for key `k`. -/
def mmHasKey {α : Type} (m : List (String × α)) (k : String) : Bool :=
  m.any (fun e => e.1 == k)

/-- The slice stored under key `k` in a Go `map[string][]α` built by
`append`: all entry values with that key, in insertion order. -/
def mmGet {α : Type} (m : List (String × α)) (k : String) : List α :=
  (m.filter (fun e => e.1 == k)).map (fun e => e.2)

/-- Keys of a key list in first-occurrence order (the key set that a Go
`range` over the map enumerates, in one canonical order). -/
def dedupKeys : List String → List String
  | [] => []
  | k :: rest => k :: (dedupKeys rest).filter (fun x => x ≠ k)

/-- The key set of a Go map embedded as an entry list, in first-insertion
order. -/
def mmKeys {α : Type} (m : List (String × α)) : List String :=
  dedupKeys (m.map Prod.fst)

/-- Go map indexing `m[k]` on a `map[string]string` (zero value `""` when
the key is absent; absent keys are never queried by the code below). -/
def mapGet (l : List (String × String)) (k : String) : String :=
  match l.find? (fun e => e.1 == k) with
  | some e => e.2
  | none => ""

/-! ## Data model (types of the records the four listings return) -/

/-- `model.AllocationAttribute`: a primary tag (Go `*string`) and a
secondary key/value map (embedded as an association list whose key order
is irrelevant — `formatAttrs` sorts the keys). -/
structure AllocationAttribute where
  AttrPrimary : Option String
  AttrSecondary : List (String × String)
deriving Repr, DecidableEq

/-- `model.AllocationBlock`: the CIDR, the optional affinity, the
per-ordinal allocation markers (`nil` = unallocated, otherwise an index
into the attribute table; a Go `int`, hence `Int`) and the attribute
table. -/
structure AllocationBlock where
  CIDR : String
  Affinity : Option String
  Allocations : List (Option Int)
  Attributes : List AllocationAttribute
deriving Repr, DecidableEq

/-- `apiv3` node wireguard spec (only the field read by `getNodeIPs`). -/
structure NodeWireguard where
  InterfaceIPv4Address : String
deriving Repr, DecidableEq

/-- `apiv3` node BGP spec (only the field read by `getNodeIPs`). -/
structure NodeBGP where
  IPv4IPIPTunnelAddr : String
deriving Repr, DecidableEq

/-- `apiv3` node spec: the three optional tunnel addresses. -/
structure NodeSpec where
  IPv4VXLANTunnelAddr : String
  Wireguard : Option NodeWireguard
  BGP : Option NodeBGP
deriving Repr, DecidableEq

/-- `apiv3.Node`, restricted to the fields the checker reads. -/
structure Node where
  Name : String
  Spec : NodeSpec
deriving Repr, DecidableEq

/-- `apiv3.WorkloadEndpoint`, restricted to the fields the checker reads. -/
structure WorkloadEndpoint where
  Namespace : String
  Name : String
  IPNetworks : List String
deriving Repr, DecidableEq

/-- `apiv3.IPPool`, restricted to the fields the checker reads
(`Spec.CIDR` and `Spec.Disabled`). -/
structure IPPool where
  CIDR : String
  Disabled : Bool
deriving Repr, DecidableEq

/-- The address functions the checker calls in `libcalico-go` and Go's
`net` package, which are outside this repository's source.  Modelled from
the spec: the Address Normalizer "parses heterogeneous address/CIDR string
representations into a canonical comparable form" or fails
(`normalise` models `cnet.ParseCIDROrIP` followed by `ip.String()`);
`parsePoolCIDR` models `cnet.ParseCIDR` on a pool CIDR, keeping the parsed
pool; `cidrContains` models `net.ParseIP` of a canonical address followed
by `cnet.IPNet.Contains`; `ordinalToIP` models
`model.AllocationBlock.OrdinalToIP(ord).String()`, the canonical address
of an ordinal inside a block.  The checker is verified for every
instantiation of this interface. -/
structure NetEnv where
  normalise : String → Option String
  parsePoolCIDR : String → Option String
  cidrContains : String → String → Bool
  ordinalToIP : AllocationBlock → Nat → String

/-- Modelled from the spec: the "reserved-for-infrastructure marker"
(`ipam.WindowsReservedHandle` of `libcalico-go`, a string constant not in
this repository's source; only equality with it is ever tested). -/
def WindowsReservedHandle : String := "windows-reserved-IPAM-handle"

/-! ## Attribute rendering (`formatAttrs`, `allocation.GetAttrString`) -/

/-- The sorted secondary-attribute keys: `formatAttrs` collects the keys of
`AttrSecondary` and sorts them (`sort.Strings`, lexicographic). -/
def sortedSecondaryKeys (attrs : AllocationAttribute) : List String :=
  List.insertionSort (fun a b => a ≤ b) (attrs.AttrSecondary.map Prod.fst)

/-- `formatAttrs`: renders the primary tag (`<none>` when nil) and the
secondary key/value pairs sorted by key, joined by commas. -/
def formatAttrs (attrs : AllocationAttribute) : String :=
  let primary := match attrs.AttrPrimary with
    | none => "<none>"
    | some p => p
  let kvs := (sortedSecondaryKeys attrs).map
    (fun k => k ++ "=" ++ mapGet attrs.AttrSecondary k)
  "Main:" ++ primary ++ " Extra:" ++ String.intercalate "," kvs

/-- One recorded allocation: the owning block and the ordinal within it. -/
structure allocation where
  Block : AllocationBlock
  Ordinal : Nat
deriving Repr, DecidableEq

/-- `allocation.GetAttrString`: dereferences the allocation marker and, if
the attribute table is longer than the marker value, renders that
attribute, otherwise reports `<missing>`.  `none` models the Go runtime
panics: ordinal out of range, nil marker, or a negative marker value
(`len(Attributes) > attrIdx` holds for a negative `attrIdx`, and the
subsequent indexing panics). -/
def allocation.GetAttrString (a : allocation) : Option String :=
  match a.Block.Allocations.get? a.Ordinal with
  | none => none
  | some none => none
  | some (some attrIdx) =>
    if (a.Block.Attributes.length : Int) > attrIdx then
      match goIndex a.Block.Attributes attrIdx with
      | none => none
      | some attrs => some (formatAttrs attrs)
    else
      some "<missing>"

/-- An owner of an in-use address.  The Go struct also carries the opaque
`Resource interface{}` handle, which is never read by any comparison or
reporting logic, so it is dropped here. -/
structure ownerRecord where
  FriendlyName : String
deriving Repr, DecidableEq

/-! ## The checker state and output -/

/-- Which print site produced an output line: a progress banner/count, a
per-address line gated by `showAllIPs`, or a per-address problem line
gated by `showProblemIPs`. -/
inductive LineClass where
  | progress
  | allIP
  | problemIP
deriving Repr, DecidableEq

/-- One line of the checker's stdout, tagged with its print-site class. -/
abbrev OutLine := LineClass × String

/-- The ways a check run ends early: a failed listing (wrapping the
cause), a pool CIDR parse failure, a node or workload address parse
failure (carrying the owning entity's identity and the offending raw
value, as the Go error message does), or a runtime panic. -/
inductive CheckError where
  | listBlocksFailed (cause : String)
  | listPoolsFailed (cause : String)
  | listNodesFailed (cause : String)
  | listWEPsFailed (cause : String)
  | poolParseFailed (rawCIDR : String)
  | nodeIPParseFailed (field : String) (raw : String) (nodeName : String)
  | wepIPParseFailed (raw : String) (wepNamespace : String) (wepName : String)
  | panic
deriving Repr, DecidableEq

/-- The `IPAMChecker` struct: the Allocation Index (`allocations`), the
Usage Index (`inUseIPs`) — both Go maps from canonical address, embedded
as entry lists in insertion order — the two verbosity flags, and the
stdout transcript (the Go code prints directly; the unused
`allocationsByNode` field is omitted). -/
structure IPAMChecker where
  allocations : List (String × allocation)
  inUseIPs : List (String × ownerRecord)
  showAllIPs : Bool
  showProblemIPs : Bool
  transcript : List OutLine
deriving Repr, DecidableEq

/-- `NewIPAMChecker`: empty indexes plus the two flags (the client handles
of the Go constructor are the datastore plumbing, modelled separately). -/
def NewIPAMChecker (sa sp : Bool) : IPAMChecker :=
  { allocations := [], inUseIPs := [], showAllIPs := sa, showProblemIPs := sp,
    transcript := [] }

/-- Append one stdout line. -/
def emit (c : IPAMChecker) (l : OutLine) : IPAMChecker :=
  { c with transcript := c.transcript ++ [l] }

/-- Append one progress line. -/
def emitP (c : IPAMChecker) (s : String) : IPAMChecker :=
  emit c (LineClass.progress, s)

/-- `IPAMChecker.recordInUseIP`: print the ownership line when
`showAllIPs` is set, then append an owner record under the canonical
address (the opaque referrer argument is dropped with the `Resource`
field). -/
def recordInUseIP (c : IPAMChecker) (ip : String) (friendlyName : String) :
    IPAMChecker :=
  let c :=
    if c.showAllIPs then emit c (LineClass.allIP, s!"  {ip} belongs to {friendlyName}")
    else c
  { c with inUseIPs := c.inUseIPs ++ [(ip, { FriendlyName := friendlyName })] }

/-- The `showAllIPs` print of `recordAllocation`
(`"  %s allocated; attrs %s"`); the `GetAttrString` call can panic. -/
def printAllocation (c : IPAMChecker) (ip : String) (alloc : allocation) :
    Except CheckError IPAMChecker :=
  if c.showAllIPs then
    match alloc.GetAttrString with
    | none => Except.error CheckError.panic
    | some s => Except.ok (emit c (LineClass.allIP, s!"  {ip} allocated; attrs {s}"))
  else Except.ok c

/-- The reserved-handle check of `recordAllocation`: dereference the
ordinal's marker, and if the attribute table is long enough and the
primary tag equals `WindowsReservedHandle`, register the address as in use
("Reserved for Windows").  A negative marker passes the length test and
panics on the indexing. -/
def reservedCheck (c : IPAMChecker) (b : AllocationBlock) (ord : Nat)
    (ip : String) : Except CheckError IPAMChecker :=
  match b.Allocations.get? ord with
  | none => .error CheckError.panic
  | some none => .error CheckError.panic
  | some (some attrIdx) =>
    if (b.Attributes.length : Int) > attrIdx then
      match goIndex b.Attributes attrIdx with
      | none => .error CheckError.panic
      | some attrs =>
        match attrs.AttrPrimary with
        | some p =>
          if p = WindowsReservedHandle then
            .ok (recordInUseIP c ip "Reserved for Windows")
          else .ok c
        | none => .ok c
    else .ok c

/-- `IPAMChecker.recordAllocation`: append an allocation record for the
ordinal's address, print it when `showAllIPs` is set, and run the
reserved-handle check.  `CheckError.panic` models the runtime panics of
`GetAttrString` and of indexing the attribute table with a negative
marker. -/
def recordAllocation (env : NetEnv) (c : IPAMChecker) (b : AllocationBlock)
    (ord : Nat) : Except CheckError IPAMChecker :=
  let ip := env.ordinalToIP b ord
  let alloc : allocation := { Block := b, Ordinal := ord }
  let c1 := { c with allocations := c.allocations ++ [(ip, alloc)] }
  match printAllocation c1 ip alloc with
  | .error e => .error e
  | .ok c2 => reservedCheck c2 b ord ip

/-- The `for ord, attrIdx := range b.Allocations` loop of the block phase:
skip nil markers, record every allocated ordinal. -/
def recordBlockLoop (env : NetEnv) (c : IPAMChecker) (b : AllocationBlock)
    (ord : Nat) : List (Option Int) → Except CheckError IPAMChecker
  | [] => .ok c
  | none :: rest => recordBlockLoop env c b (ord + 1) rest
  | some _ :: rest =>
    match recordAllocation env c b ord with
    | .error e => .error e
    | .ok c' => recordBlockLoop env c' b (ord + 1) rest

/-- The per-block banner line `" IPAM block %s affinity=%s:"`
(`<none>` when the affinity pointer is nil). -/
def blockBanner (b : AllocationBlock) : String :=
  let affinity := match b.Affinity with
    | none => "<none>"
    | some a => a
  let bc := b.CIDR
  s!" IPAM block {bc} affinity={affinity}:"

/-- The block phase loop over all blocks: print each block's banner, then
record its allocated ordinals. -/
def recordBlocks (env : NetEnv) (c : IPAMChecker) :
    List AllocationBlock → Except CheckError IPAMChecker
  | [] => .ok c
  | b :: rest =>
    match recordBlockLoop env (emitP c (blockBanner b)) b 0 b.Allocations with
    | .error e => .error e
    | .ok c' => recordBlocks env c' rest

/-! ## Address extraction (`normaliseIP`, `getNodeIPs`, `getWEPIPs`) -/

/-- `normaliseIP`: parse the (possibly CIDR-qualified) address and return
its canonical bare string form. -/
def normaliseIP (env : NetEnv) (addr : String) : Option String :=
  env.normalise addr

/-- One `if addr != "" { ... }` block of `getNodeIPs`: skip an unset
address, normalise a set one, failing with the field name, the raw value
and the node name. -/
def nodeAddrStep (env : NetEnv) (field raw nodeName : String) :
    Except CheckError (List String) :=
  if raw ≠ "" then
    match normaliseIP env raw with
    | none => .error (CheckError.nodeIPParseFailed field raw nodeName)
    | some ip => .ok [ip]
  else .ok []

/-- `getNodeIPs`: collect the node's VXLAN, Wireguard and IPIP tunnel
addresses, in that order (the Wireguard and BGP blocks run only when the
sub-struct pointer is non-nil); the first normalisation failure is
returned as an error naming the field, the raw value and the node. -/
def getNodeIPs (env : NetEnv) (n : Node) : Except CheckError (List String) :=
  match nodeAddrStep env "IPv4VXLANTunnelAddr" n.Spec.IPv4VXLANTunnelAddr n.Name with
  | .error e => .error e
  | .ok ips1 =>
    let step2 : Except CheckError (List String) :=
      match n.Spec.Wireguard with
      | some wg =>
        nodeAddrStep env "Wireguard.InterfaceIPv4Address" wg.InterfaceIPv4Address n.Name
      | none => .ok []
    match step2 with
    | .error e => .error e
    | .ok ips2 =>
      let step3 : Except CheckError (List String) :=
        match n.Spec.BGP with
        | some bgp => nodeAddrStep env "IPv4IPIPTunnelAddr" bgp.IPv4IPIPTunnelAddr n.Name
        | none => .ok []
      match step3 with
      | .error e => .error e
      | .ok ips3 => .ok (ips1 ++ ips2 ++ ips3)

/-- The loop of `getWEPIPs` over `w.Spec.IPNetworks`: normalise each
address, failing on the first parse error with the workload's identity and
the raw value. -/
def getWEPIPsLoop (env : NetEnv) (w : WorkloadEndpoint) :
    List String → Except CheckError (List String)
  | [] => .ok []
  | a :: rest =>
    match normaliseIP env a with
    | none => .error (CheckError.wepIPParseFailed a w.Namespace w.Name)
    | some ip =>
      match getWEPIPsLoop env w rest with
      | .error e => .error e
      | .ok ips => .ok (ip :: ips)

/-- `getWEPIPs`: the workload endpoint's normalised addresses. -/
def getWEPIPs (env : NetEnv) (w : WorkloadEndpoint) :
    Except CheckError (List String) :=
  getWEPIPsLoop env w w.IPNetworks

/-- The owner label `Node(<name>)`. -/
def nodeLabel (n : Node) : String :=
  let nm := n.Name
  s!"Node({nm})"

/-- The owner label `Workload(<namespace>/<name>)`. -/
def wepLabel (w : WorkloadEndpoint) : String :=
  let ns := w.Namespace
  let nm := w.Name
  s!"Workload({ns}/{nm})"

/-- The node phase loop: register every extracted node address as in use
with label `Node(<name>)`, counting the addresses; a parse failure aborts. -/
def recordNodes (env : NetEnv) (c : IPAMChecker) (count : Nat) :
    List Node → Except CheckError (IPAMChecker × Nat)
  | [] => .ok (c, count)
  | n :: rest =>
    match getNodeIPs env n with
    | .error e => .error e
    | .ok ips =>
      let c' := ips.foldl (fun acc ip => recordInUseIP acc ip (nodeLabel n)) c
      recordNodes env c' (count + ips.length) rest

/-- The workload phase loop: register every workload address as in use
with label `Workload(<namespace>/<name>)`; a parse failure aborts. -/
def recordWEPs (env : NetEnv) (c : IPAMChecker) (count : Nat) :
    List WorkloadEndpoint → Except CheckError (IPAMChecker × Nat)
  | [] => .ok (c, count)
  | w :: rest =>
    match getWEPIPs env w with
    | .error e => .error e
    | .ok ips =>
      let c' := ips.foldl (fun acc ip => recordInUseIP acc ip (wepLabel w)) c
      recordWEPs env c' (count + ips.length) rest

/-! ## Pool loading and the classification scans -/

/-- The pool phase loop: skip disabled pools; print and parse each enabled
pool's CIDR, aborting on a parse failure; return the printed lines and the
Active Pool Set in listing order. -/
def loadPools (env : NetEnv) :
    List IPPool → Except CheckError (List OutLine × List String)
  | [] => .ok ([], [])
  | p :: rest =>
    if p.Disabled then loadPools env rest
    else
      let pc := p.CIDR
      match env.parsePoolCIDR p.CIDR with
      | none => .error (CheckError.poolParseFailed p.CIDR)
      | some cidr =>
        match loadPools env rest with
        | .error e => .error e
        | .ok (lines, pools) =>
          .ok ((LineClass.progress, s!"  {pc}") :: lines, cidr :: pools)

/-- Whether any active pool contains the address (the linear containment
scan over `activeIPPools`). -/
def inActivePools (env : NetEnv) (activePools : List String) (ip : String) : Bool :=
  activePools.any (fun cidr => env.cidrContains cidr ip)

/-- The per-allocation problem lines `<ip> leaked; attrs ...` for one leaked
address (printed only when `showProblemIPs` is set); a `GetAttrString`
panic aborts. -/
def leakedLines (ip : String) : List allocation → Except CheckError (List OutLine)
  | [] => .ok []
  | a :: rest =>
    match a.GetAttrString with
    | none => .error CheckError.panic
    | some s =>
      match leakedLines ip rest with
      | .error e => .error e
      | .ok ls => .ok ((LineClass.problemIP, s!"  {ip} leaked; attrs {s}") :: ls)

/-- The first scan (`allocated but not actually in use`), over the given
enumeration `order` of the Allocation Index's keys: collect the leaked
addresses and, when `showProblemIPs` is set, their problem lines. -/
def scanAllocations (sp : Bool) (am : List (String × allocation))
    (im : List (String × ownerRecord)) :
    List String → Except CheckError (List OutLine × List String)
  | [] => .ok ([], [])
  | ip :: rest =>
    if mmHasKey im ip then scanAllocations sp am im rest
    else
      let lines :=
        if sp then leakedLines ip (mmGet am ip) else .ok []
      match lines with
      | .error e => .error e
      | .ok ls =>
        match scanAllocations sp am im rest with
        | .error e => .error e
        | .ok (restLines, restLeaked) => .ok (ls ++ restLines, ip :: restLeaked)

/-- The second scan (`in use but not allocated`), over the given
enumeration `order` of the Usage Index's keys: flag multi-owner addresses,
then split unallocated in-use addresses into non-Calico (outside every
active pool) and missing-allocation (inside one); returns the problem
lines, the non-Calico list and the missing-allocation list. -/
def scanInUse (env : NetEnv) (sp : Bool) (activePools : List String)
    (am : List (String × allocation)) (im : List (String × ownerRecord)) :
    List String → List OutLine × List String × List String
  | [] => ([], [], [])
  | ip :: rest =>
    let owners := mmGet im ip
    let multiLines : List OutLine :=
      if sp ∧ owners.length > 1 then
        [(LineClass.problemIP, s!"  {ip} has multiple owners.")]
      else []
    let r := scanInUse env sp activePools am im rest
    if mmHasKey am ip then (multiLines ++ r.1, r.2.1, r.2.2)
    else
      if inActivePools env activePools ip then
        let ownerLines : List OutLine :=
          if sp then
            owners.map (fun o =>
              let fn := o.FriendlyName
              (LineClass.problemIP,
                s!"  {ip} in use by {fn} and in active IPAM pool but has no IPAM allocation."))
          else []
        (multiLines ++ ownerLines ++ r.1, r.2.1, ip :: r.2.2)
      else
        let ownerLines : List OutLine :=
          if sp then
            owners.map (fun o =>
              let fn := o.FriendlyName
              (LineClass.problemIP, s!"  {ip} in use by {fn} is not in any active IP pool."))
          else []
        (multiLines ++ ownerLines ++ r.1, ip :: r.2.1, r.2.2)

/-! ## The six phases and `checkIPAM` -/

deriving instance DecidableEq for Except

/-- The results of the four listing calls the checker issues (each call
either fails with an underlying cause or returns its records). -/
structure DatastoreResults where
  blocksResult : Except String (List AllocationBlock)
  poolsResult : Except String (List IPPool)
  nodesResult : Except String (List Node)
  wepsResult : Except String (List WorkloadEndpoint)
deriving Repr, DecidableEq

/-- What a completed run produced: the stdout transcript, the three
problem lists, the `numProblems` total, the two final indexes and the
Active Pool Set (Go exposes these only through stdout; the structure keeps
them inspectable). -/
structure CheckOutcome where
  transcript : List OutLine
  leakedIPs : List String
  nonCalicoIPs : List String
  missingAllocIPs : List String
  numProblems : Nat
  allocations : List (String × allocation)
  inUseIPs : List (String × ownerRecord)
  activePools : List String
deriving Repr, DecidableEq, Inhabited

/-- The fresh checker with the opening banner lines of the run and the
block-count line, printed before the block loop. -/
def phase1Prelude (sa sp : Bool) (blocks : List AllocationBlock) : IPAMChecker :=
  let c := NewIPAMChecker sa sp
  let c := emitP c "Checking IPAM for inconsistencies..."
  let c := emitP c ""
  let c := emitP c "Loading all IPAM blocks..."
  let nb := blocks.length
  emitP c s!"Found {nb} IPAM blocks."

/-- Phase 1: banner lines, then record every block's allocations. -/
def phase1 (env : NetEnv) (sa sp : Bool) (blocks : List AllocationBlock) :
    Except CheckError IPAMChecker :=
  match recordBlocks env (phase1Prelude sa sp blocks) blocks with
  | .error e => .error e
  | .ok c1 =>
    let na := (mmKeys c1.allocations).length
    let c1 := emitP c1 s!"IPAM blocks record {na} allocations."
    .ok (emitP c1 "")

/-- Phase 2: load the active pools (skipping disabled ones) and build the
Active Pool Set. -/
def phase2 (env : NetEnv) (c : IPAMChecker) (pools : List IPPool) :
    Except CheckError (IPAMChecker × List String) :=
  let c := emitP c "Loading all IPAM pools..."
  match loadPools env pools with
  | .error e => .error e
  | .ok (lines, activePools) =>
    let c := { c with transcript := c.transcript ++ lines }
    let np := activePools.length
    let c := emitP c s!"Found {np} active IP pools."
    .ok (emitP c "", activePools)

/-- Phase 3: register every node's tunnel addresses as in use. -/
def phase3 (env : NetEnv) (c : IPAMChecker) (nodes : List Node) :
    Except CheckError IPAMChecker :=
  let c := emitP c "Loading all nodes."
  match recordNodes env c 0 nodes with
  | .error e => .error e
  | .ok (c1, numNodeIPs) =>
    let c1 := emitP c1 s!"Found {numNodeIPs} node tunnel IPs."
    .ok (emitP c1 "")

/-- Phase 4: register every workload endpoint's addresses as in use. -/
def phase4 (env : NetEnv) (c : IPAMChecker) (weps : List WorkloadEndpoint) :
    Except CheckError IPAMChecker :=
  let c := emitP c "Loading all workload endpoints."
  match recordWEPs env c 0 weps with
  | .error e => .error e
  | .ok (c1, numWepIPs) =>
    let c1 := emitP c1 s!"Found {numWepIPs} workload IPs."
    let nu := (mmKeys c1.inUseIPs).length
    let c1 := emitP c1 s!"Workloads and nodes are using {nu} IPs."
    .ok (emitP c1 "")

/-- Phases 5–6: the two classification scans over the indexes' key sets,
the category counts, the `numProblems` total (leaked + non-Calico +
missing allocation) and the final summary line. -/
def phase5 (env : NetEnv) (c : IPAMChecker) (activePools : List String) :
    Except CheckError CheckOutcome :=
  let c := emitP c "Scanning for IPs that are allocated but not actually in use..."
  match scanAllocations c.showProblemIPs c.allocations c.inUseIPs
      (mmKeys c.allocations) with
  | .error e => .error e
  | .ok (lines1, leaked) =>
    let c := { c with transcript := c.transcript ++ lines1 }
    let nl := leaked.length
    let c := emitP c s!"Found {nl} IPs that are allocated in IPAM but not actually in use."
    let c := emitP c "Scanning for IPs that are in use by a workload or node but not allocated in IPAM..."
    let scan2 := scanInUse env c.showProblemIPs activePools c.allocations
      c.inUseIPs (mmKeys c.inUseIPs)
    let c := { c with transcript := c.transcript ++ scan2.1 }
    let nonCalico := scan2.2.1
    let missing := scan2.2.2
    let nn := nonCalico.length
    let nm := missing.length
    let c := emitP c s!"Found {nn} in-use IPs that are not in active IP pools."
    let c := emitP c s!"Found {nm} in-use IPs that are in active IP pools but have no corresponding IPAM allocation."
    let c := emitP c ""
    let numProblems := nl + nn + nm
    let c := emitP c s!"Check complete; found {numProblems} problems."
    .ok { transcript := c.transcript, leakedIPs := leaked,
          nonCalicoIPs := nonCalico, missingAllocIPs := missing,
          numProblems := numProblems, allocations := c.allocations,
          inUseIPs := c.inUseIPs, activePools := activePools }

/-- `IPAMChecker.checkIPAM`: the sequential six-phase run.  Each listing
failure is wrapped naming the listing; any phase error aborts the run with
no outcome (no classification, no summary). -/
def checkIPAM (env : NetEnv) (sa sp : Bool) (ds : DatastoreResults) :
    Except CheckError CheckOutcome :=
  match ds.blocksResult with
  | .error cause => .error (CheckError.listBlocksFailed cause)
  | .ok blocks =>
    match phase1 env sa sp blocks with
    | .error e => .error e
    | .ok c =>
      match ds.poolsResult with
      | .error cause => .error (CheckError.listPoolsFailed cause)
      | .ok pools =>
        match phase2 env c pools with
        | .error e => .error e
        | .ok (c, activePools) =>
          match ds.nodesResult with
          | .error cause => .error (CheckError.listNodesFailed cause)
          | .ok nodes =>
            match phase3 env c nodes with
            | .error e => .error e
            | .ok c =>
              match ds.wepsResult with
              | .error cause => .error (CheckError.listWEPsFailed cause)
              | .ok weps =>
                match phase4 env c weps with
                | .error e => .error e
                | .ok c => phase5 env c activePools

/-! ## The datastore as explicit state (for the frame property) -/

/-- The datastore state the checker's client reaches: what each of the
four listings would return, plus every other record the datastore holds
(opaque here; the checker never touches them). -/
structure Datastore where
  blocksResult : Except String (List AllocationBlock)
  poolsResult : Except String (List IPPool)
  nodesResult : Except String (List Node)
  wepsResult : Except String (List WorkloadEndpoint)
  otherRecords : List (String × String)
deriving Repr, DecidableEq

/-- `List(ctx, BlockListOptions{}, "")`: a read — returns the blocks and
the unchanged store. -/
def listBlocks (s : Datastore) : Except String (List AllocationBlock) × Datastore :=
  (s.blocksResult, s)

/-- `IPPools().List`: a read. -/
def listIPPools (s : Datastore) : Except String (List IPPool) × Datastore :=
  (s.poolsResult, s)

/-- `Nodes().List`: a read. -/
def listNodes (s : Datastore) : Except String (List Node) × Datastore :=
  (s.nodesResult, s)

/-- `WorkloadEndpoints().List`: a read. -/
def listWorkloadEndpoints (s : Datastore) :
    Except String (List WorkloadEndpoint) × Datastore :=
  (s.wepsResult, s)

/-- `checkIPAM` run against a datastore state: the four listing calls are
issued in phase order (each threading the store), and the run consumes
only their results.  Returns the run's result together with the final
datastore state. -/
def checkIPAMOnStore (env : NetEnv) (sa sp : Bool) (s : Datastore) :
    Except CheckError CheckOutcome × Datastore :=
  let (blocksResult, s) := listBlocks s
  let (poolsResult, s) := listIPPools s
  let (nodesResult, s) := listNodes s
  let (wepsResult, s) := listWorkloadEndpoints s
  (checkIPAM env sa sp
    { blocksResult := blocksResult, poolsResult := poolsResult,
      nodesResult := nodesResult, wepsResult := wepsResult }, s)

/-- The flag wiring of the `Check` command entry point:
`showProblemIPs := showAllIPs || --show-problem-ips`, so the problem-line
gate is the disjunction of the two command-line flags. -/
def checkWithFlags (env : NetEnv) (showAllFlag showProblemFlag : Bool)
    (ds : DatastoreResults) : Except CheckError CheckOutcome :=
  checkIPAM env showAllFlag (showAllFlag || showProblemFlag) ds

/-! ## Key-set lemmas -/

theorem mem_dedupKeys : ∀ (l : List String) (k : String), k ∈ dedupKeys l ↔ k ∈ l := by
  intro l
  induction l with
  | nil => simp [dedupKeys]
  | cons k' rest ih =>
    intro k
    rw [dedupKeys]
    simp only [List.mem_cons, List.mem_filter, ih]
    by_cases hk : k = k' <;> simp [hk]

theorem nodup_dedupKeys : ∀ l : List String, (dedupKeys l).Nodup := by
  intro l
  induction l with
  | nil => simp [dedupKeys]
  | cons k rest ih =>
    rw [dedupKeys]
    refine List.Nodup.cons ?_ (ih.filter _)
    intro hk
    simp [List.mem_filter] at hk

theorem mem_mmKeys {α : Type} (m : List (String × α)) (k : String) :
    k ∈ mmKeys m ↔ mmHasKey m k = true := by
  rw [mmKeys, mem_dedupKeys, mmHasKey, List.any_eq_true]
  constructor
  · intro hm
    obtain ⟨e, he, hk⟩ := List.mem_map.mp hm
    exact ⟨e, he, by simp [hk]⟩
  · rintro ⟨e, he, hk⟩
    exact List.mem_map.mpr ⟨e, he, by simpa using hk.symm⟩

theorem nodup_mmKeys {α : Type} (m : List (String × α)) : (mmKeys m).Nodup :=
  nodup_dedupKeys _

/-! ## Scan lemmas -/

theorem scanAllocations_ok {sp : Bool} {am : List (String × allocation)}
    {im : List (String × ownerRecord)} :
    ∀ {order : List String} {ls : List OutLine} {leaked : List String},
    scanAllocations sp am im order = .ok (ls, leaked) →
    leaked = order.filter (fun ip => !(mmHasKey im ip)) := by
  intro order
  induction order with
  | nil => intro ls leaked h; simp [scanAllocations] at h; simp [h.2]
  | cons ip rest ih =>
    intro ls leaked h
    rw [scanAllocations] at h
    by_cases hk : mmHasKey im ip
    · rw [if_pos hk] at h
      simpa [hk] using ih h
    · rw [if_neg hk] at h
      cases hl : (if sp then leakedLines ip (mmGet am ip) else Except.ok []) with
      | error e => rw [hl] at h; exact Except.noConfusion h
      | ok ls0 =>
        rw [hl] at h
        dsimp only at h
        cases hrest : scanAllocations sp am im rest with
        | error e => rw [hrest] at h; exact Except.noConfusion h
        | ok pr =>
          obtain ⟨rl, rlk⟩ := pr
          rw [hrest] at h
          dsimp only at h
          simp only [Except.ok.injEq, Prod.mk.injEq] at h
          obtain ⟨h1, h2⟩ := h
          simp only [Bool.not_eq_true] at hk
          simp [hk, ← h2, ih hrest]

theorem scanInUse_spec (env : NetEnv) (sp : Bool) (ap : List String)
    (am : List (String × allocation)) (im : List (String × ownerRecord)) :
    ∀ order : List String,
    (scanInUse env sp ap am im order).2.1 =
      order.filter (fun ip => !mmHasKey am ip && !inActivePools env ap ip) ∧
    (scanInUse env sp ap am im order).2.2 =
      order.filter (fun ip => !mmHasKey am ip && inActivePools env ap ip) := by
  intro order
  induction order with
  | nil => simp [scanInUse]
  | cons ip rest ih =>
    obtain ⟨ih1, ih2⟩ := ih
    rw [scanInUse]
    by_cases hk : mmHasKey am ip <;> by_cases hp : inActivePools env ap ip <;>
      simp [hk, hp, ih1, ih2]

theorem phase5_ok {env : NetEnv} {c : IPAMChecker} {ap : List String}
    {o : CheckOutcome} (h : phase5 env c ap = Except.ok o) :
    o.allocations = c.allocations ∧
    o.inUseIPs = c.inUseIPs ∧
    o.activePools = ap ∧
    o.leakedIPs = (mmKeys c.allocations).filter
      (fun ip => !(mmHasKey c.inUseIPs ip)) ∧
    o.nonCalicoIPs = (mmKeys c.inUseIPs).filter
      (fun ip => !mmHasKey c.allocations ip && !inActivePools env ap ip) ∧
    o.missingAllocIPs = (mmKeys c.inUseIPs).filter
      (fun ip => !mmHasKey c.allocations ip && inActivePools env ap ip) ∧
    o.numProblems =
      o.leakedIPs.length + o.nonCalicoIPs.length + o.missingAllocIPs.length := by
  simp only [phase5, emitP, emit] at h
  cases hs : scanAllocations c.showProblemIPs c.allocations c.inUseIPs
      (mmKeys c.allocations) with
  | error e => rw [hs] at h; exact Except.noConfusion h
  | ok pr =>
  obtain ⟨lines1, leaked⟩ := pr
  rw [hs] at h
  dsimp only at h
  simp only [Except.ok.injEq] at h
  subst h
  have hlk := scanAllocations_ok hs
  have hsc := scanInUse_spec env c.showProblemIPs ap c.allocations c.inUseIPs
    (mmKeys c.inUseIPs)
  exact ⟨rfl, rfl, rfl, hlk, hsc.1, hsc.2, rfl⟩

/-! ## Run inversion -/

theorem checkIPAM_ok_inv {env : NetEnv} {sa sp : Bool} {ds : DatastoreResults}
    {o : CheckOutcome} (h : checkIPAM env sa sp ds = .ok o) :
    ∃ blocks pools nodes weps c1 c2 ap c3 c4,
      ds.blocksResult = Except.ok blocks ∧
      phase1 env sa sp blocks = Except.ok c1 ∧
      ds.poolsResult = Except.ok pools ∧
      phase2 env c1 pools = Except.ok (c2, ap) ∧
      ds.nodesResult = Except.ok nodes ∧
      phase3 env c2 nodes = Except.ok c3 ∧
      ds.wepsResult = Except.ok weps ∧
      phase4 env c3 weps = Except.ok c4 ∧
      phase5 env c4 ap = Except.ok o := by
  unfold checkIPAM at h
  cases hb : ds.blocksResult with
  | error cause => rw [hb] at h; exact Except.noConfusion h
  | ok blocks =>
  rw [hb] at h; dsimp only at h
  cases h1 : phase1 env sa sp blocks with
  | error e => rw [h1] at h; exact Except.noConfusion h
  | ok c1 =>
  rw [h1] at h; dsimp only at h
  cases hp : ds.poolsResult with
  | error cause => rw [hp] at h; exact Except.noConfusion h
  | ok pools =>
  rw [hp] at h; dsimp only at h
  cases h2 : phase2 env c1 pools with
  | error e => rw [h2] at h; exact Except.noConfusion h
  | ok cp =>
  obtain ⟨c2, ap⟩ := cp
  rw [h2] at h; dsimp only at h
  cases hn : ds.nodesResult with
  | error cause => rw [hn] at h; exact Except.noConfusion h
  | ok nodes =>
  rw [hn] at h; dsimp only at h
  cases h3 : phase3 env c2 nodes with
  | error e => rw [h3] at h; exact Except.noConfusion h
  | ok c3 =>
  rw [h3] at h; dsimp only at h
  cases hw : ds.wepsResult with
  | error cause => rw [hw] at h; exact Except.noConfusion h
  | ok weps =>
  rw [hw] at h; dsimp only at h
  cases h4 : phase4 env c3 weps with
  | error e => rw [h4] at h; exact Except.noConfusion h
  | ok c4 =>
  rw [h4] at h; dsimp only at h
  exact ⟨blocks, pools, nodes, weps, c1, c2, ap, c3, c4, rfl, h1, rfl, h2, rfl, h3, rfl, h4, h⟩

/-! ## Claim theorems -/

/-- C1: for every canonical address appearing in either index after a
successful run, the classification is leaked iff the address is in the
Allocation Index and not the Usage Index; foreign (non-Calico) iff it is
in the Usage Index, not the Allocation Index, and in no active pool; and
missing-allocation iff it is in the Usage Index, not the Allocation Index,
and in some active pool. -/
theorem classification_iff
    {env : NetEnv} {sa sp : Bool} {ds : DatastoreResults} {o : CheckOutcome}
    (h : checkIPAM env sa sp ds = Except.ok o) (ip : String)
    (hmem : mmHasKey o.allocations ip = true ∨ mmHasKey o.inUseIPs ip = true) :
    (ip ∈ o.leakedIPs ↔
      mmHasKey o.allocations ip = true ∧ mmHasKey o.inUseIPs ip = false) ∧
    (ip ∈ o.nonCalicoIPs ↔
      mmHasKey o.inUseIPs ip = true ∧ mmHasKey o.allocations ip = false ∧
        inActivePools env o.activePools ip = false) ∧
    (ip ∈ o.missingAllocIPs ↔
      mmHasKey o.inUseIPs ip = true ∧ mmHasKey o.allocations ip = false ∧
        inActivePools env o.activePools ip = true) := by
  obtain ⟨blocks, pools, nodes, weps, c1, c2, ap, c3, c4, hb, h1, hp, h2, hn, h3,
    hw, h4, h5⟩ := checkIPAM_ok_inv h
  obtain ⟨ha, hi, hap, hlk, hnc, hmi, hnum⟩ := phase5_ok h5
  rw [hlk, hnc, hmi, ha, hi, hap]
  simp only [List.mem_filter, mem_mmKeys, Bool.and_eq_true, Bool.not_eq_true']
  refine ⟨by tauto, by tauto, by tauto⟩

/-- C2: the reported total equals leaked + foreign + missing-allocation;
each of the three lists is duplicate-free and the lists are pairwise
disjoint, so no address is counted twice and owner multiplicity
(multi-owner) adds nothing to the total. -/
theorem numProblems_partition
    {env : NetEnv} {sa sp : Bool} {ds : DatastoreResults} {o : CheckOutcome}
    (h : checkIPAM env sa sp ds = Except.ok o) :
    o.numProblems =
      o.leakedIPs.length + o.nonCalicoIPs.length + o.missingAllocIPs.length ∧
    o.leakedIPs.Nodup ∧ o.nonCalicoIPs.Nodup ∧ o.missingAllocIPs.Nodup ∧
    (∀ ip ∈ o.leakedIPs, ip ∉ o.nonCalicoIPs ∧ ip ∉ o.missingAllocIPs) ∧
    (∀ ip ∈ o.nonCalicoIPs, ip ∉ o.missingAllocIPs) := by
  obtain ⟨blocks, pools, nodes, weps, c1, c2, ap, c3, c4, hb, h1, hp, h2, hn, h3,
    hw, h4, h5⟩ := checkIPAM_ok_inv h
  obtain ⟨ha, hi, hap, hlk, hnc, hmi, hnum⟩ := phase5_ok h5
  refine ⟨hnum, ?_, ?_, ?_, ?_, ?_⟩
  · rw [hlk]; exact (nodup_mmKeys _).filter _
  · rw [hnc]; exact (nodup_mmKeys _).filter _
  · rw [hmi]; exact (nodup_mmKeys _).filter _
  · intro ip hipl
    rw [hlk] at hipl
    rw [hnc, hmi]
    obtain ⟨hm, hf⟩ := List.mem_filter.mp hipl
    rw [mem_mmKeys] at hm
    constructor <;> intro hcontra <;>
      obtain ⟨_, hf2⟩ := List.mem_filter.mp hcontra <;>
      simp_all
  · intro ip hipn
    rw [hnc] at hipn
    rw [hmi]
    obtain ⟨hm, hf⟩ := List.mem_filter.mp hipn
    intro hcontra
    obtain ⟨_, hf2⟩ := List.mem_filter.mp hcontra
    simp_all


/-! ## Pool-loading lemmas -/

theorem loadPools_ok_mem {env : NetEnv} :
    ∀ {pools : List IPPool} {ls : List OutLine} {ap : List String},
    loadPools env pools = .ok (ls, ap) →
    ∀ cd ∈ ap, ∃ p, p ∈ pools ∧ p.Disabled = false ∧
      env.parsePoolCIDR p.CIDR = some cd := by
  intro pools
  induction pools with
  | nil =>
    intro ls ap h cd hcd
    simp only [loadPools, Except.ok.injEq, Prod.mk.injEq] at h
    rw [← h.2] at hcd
    exact absurd hcd (List.not_mem_nil cd)
  | cons p rest ih =>
    intro ls ap h cd hcd
    simp only [loadPools] at h
    by_cases hd : p.Disabled
    · rw [if_pos hd] at h
      obtain ⟨q, hq, h2, h3⟩ := ih h cd hcd
      exact ⟨q, List.mem_cons_of_mem _ hq, h2, h3⟩
    · rw [if_neg hd] at h
      cases hc : env.parsePoolCIDR p.CIDR with
      | none => rw [hc] at h; exact Except.noConfusion h
      | some cidr =>
        rw [hc] at h
        cases hrest : loadPools env rest with
        | error e => rw [hrest] at h; exact Except.noConfusion h
        | ok pr =>
          obtain ⟨ls', ap'⟩ := pr
          rw [hrest] at h
          dsimp only at h
          simp only [Except.ok.injEq, Prod.mk.injEq] at h
          rw [← h.2] at hcd
          rcases List.mem_cons.mp hcd with hcd | hcd
          · exact ⟨p, List.mem_cons_self .., Bool.not_eq_true _ ▸ hd, hcd ▸ hc⟩
          · obtain ⟨q, hq, h2, h3⟩ := ih hrest cd hcd
            exact ⟨q, List.mem_cons_of_mem _ hq, h2, h3⟩

theorem phase2_ok_inv {env : NetEnv} {c : IPAMChecker} {pools : List IPPool}
    {c' : IPAMChecker} {ap : List String}
    (h : phase2 env c pools = Except.ok (c', ap)) :
    (∃ ls, loadPools env pools = Except.ok (ls, ap)) ∧
    c'.allocations = c.allocations ∧ c'.inUseIPs = c.inUseIPs ∧
    c'.showAllIPs = c.showAllIPs ∧ c'.showProblemIPs = c.showProblemIPs := by
  simp only [phase2, emitP, emit] at h
  cases hl : loadPools env pools with
  | error e => rw [hl] at h; exact Except.noConfusion h
  | ok pr =>
    obtain ⟨ls, ap'⟩ := pr
    rw [hl] at h
    dsimp only at h
    simp only [Except.ok.injEq, Prod.mk.injEq] at h
    obtain ⟨hc, hap⟩ := h
    subst hap
    rw [← hc]
    exact ⟨⟨ls, rfl⟩, rfl, rfl, rfl, rfl⟩

/-! ## Parse-error lemmas -/

theorem nodeAddrStep_error_shape {env : NetEnv} {f raw nm : String} {e : CheckError}
    (h : nodeAddrStep env f raw nm = .error e) :
    e = CheckError.nodeIPParseFailed f raw nm ∧ env.normalise raw = none := by
  rw [nodeAddrStep] at h
  by_cases hr : raw = ""
  · simp [hr] at h
  · rw [if_pos hr] at h
    cases hv : normaliseIP env raw with
    | none => rw [hv] at h; exact ⟨(Except.error.inj h).symm, hv⟩
    | some ip => rw [hv] at h; exact Except.noConfusion h

theorem getNodeIPs_error_shape {env : NetEnv} {n : Node} {e : CheckError}
    (h : getNodeIPs env n = .error e) :
    ∃ f raw, e = CheckError.nodeIPParseFailed f raw n.Name ∧
      env.normalise raw = none := by
  rw [getNodeIPs] at h
  cases h1 : nodeAddrStep env "IPv4VXLANTunnelAddr" n.Spec.IPv4VXLANTunnelAddr n.Name with
  | error e1 =>
    rw [h1] at h
    obtain ⟨he, hv⟩ := nodeAddrStep_error_shape h1
    exact ⟨_, _, (Except.error.inj h).symm.trans he, hv⟩
  | ok ips1 =>
  rw [h1] at h
  dsimp only at h
  rcases hwg : n.Spec.Wireguard with _ | wg <;> rw [hwg] at h <;> dsimp only at h
  case none =>
    rcases hbgp : n.Spec.BGP with _ | bgp <;> rw [hbgp] at h <;> dsimp only at h
    case none => exact Except.noConfusion h
    case some =>
      cases h3 : nodeAddrStep env "IPv4IPIPTunnelAddr" bgp.IPv4IPIPTunnelAddr n.Name with
      | error e3 =>
        rw [h3] at h
        obtain ⟨he, hv⟩ := nodeAddrStep_error_shape h3
        exact ⟨_, _, (Except.error.inj h).symm.trans he, hv⟩
      | ok ips3 => rw [h3] at h; exact Except.noConfusion h
  case some =>
    cases h2 : nodeAddrStep env "Wireguard.InterfaceIPv4Address" wg.InterfaceIPv4Address n.Name with
    | error e2 =>
      rw [h2] at h
      obtain ⟨he, hv⟩ := nodeAddrStep_error_shape h2
      exact ⟨_, _, (Except.error.inj h).symm.trans he, hv⟩
    | ok ips2 =>
    rw [h2] at h
    dsimp only at h
    rcases hbgp : n.Spec.BGP with _ | bgp <;> rw [hbgp] at h <;> dsimp only at h
    case none => exact Except.noConfusion h
    case some =>
      cases h3 : nodeAddrStep env "IPv4IPIPTunnelAddr" bgp.IPv4IPIPTunnelAddr n.Name with
      | error e3 =>
        rw [h3] at h
        obtain ⟨he, hv⟩ := nodeAddrStep_error_shape h3
        exact ⟨_, _, (Except.error.inj h).symm.trans he, hv⟩
      | ok ips3 => rw [h3] at h; exact Except.noConfusion h

theorem getWEPIPsLoop_error_shape {env : NetEnv} {w : WorkloadEndpoint} :
    ∀ {l : List String} {e : CheckError}, getWEPIPsLoop env w l = .error e →
    ∃ raw, raw ∈ l ∧ e = CheckError.wepIPParseFailed raw w.Namespace w.Name ∧
      env.normalise raw = none := by
  intro l
  induction l with
  | nil => intro e h; exact Except.noConfusion h
  | cons a rest ih =>
    intro e h
    rw [getWEPIPsLoop] at h
    cases hv : normaliseIP env a with
    | none =>
      rw [hv] at h
      exact ⟨a, List.mem_cons_self .., (Except.error.inj h).symm, hv⟩
    | some ip =>
      rw [hv] at h
      dsimp only at h
      cases hrest : getWEPIPsLoop env w rest with
      | error e2 =>
        rw [hrest] at h
        obtain ⟨raw, hm, he, hn2⟩ := ih hrest
        exact ⟨raw, List.mem_cons_of_mem _ hm, (Except.error.inj h).symm.trans he, hn2⟩
      | ok ips => rw [hrest] at h; exact Except.noConfusion h

theorem getWEPIPs_error_shape {env : NetEnv} {w : WorkloadEndpoint} {e : CheckError}
    (h : getWEPIPs env w = .error e) :
    ∃ raw, raw ∈ w.IPNetworks ∧
      e = CheckError.wepIPParseFailed raw w.Namespace w.Name ∧
      env.normalise raw = none :=
  getWEPIPsLoop_error_shape h

theorem recordNodes_ok_all {env : NetEnv} :
    ∀ {nodes : List Node} {c : IPAMChecker} {cnt : Nat} {c' : IPAMChecker} {cnt' : Nat},
    recordNodes env c cnt nodes = .ok (c', cnt') →
    ∀ n ∈ nodes, ∃ ips, getNodeIPs env n = .ok ips := by
  intro nodes
  induction nodes with
  | nil => intro c cnt c' cnt' h n hn; exact absurd hn (List.not_mem_nil n)
  | cons n0 rest ih =>
    intro c cnt c' cnt' h n hn
    rw [recordNodes] at h
    cases hg : getNodeIPs env n0 with
    | error e => rw [hg] at h; exact Except.noConfusion h
    | ok ips =>
      rw [hg] at h
      dsimp only at h
      rcases List.mem_cons.mp hn with rfl | hn
      · exact ⟨ips, hg⟩
      · exact ih h n hn

theorem recordWEPs_ok_all {env : NetEnv} :
    ∀ {weps : List WorkloadEndpoint} {c : IPAMChecker} {cnt : Nat}
      {c' : IPAMChecker} {cnt' : Nat},
    recordWEPs env c cnt weps = .ok (c', cnt') →
    ∀ w ∈ weps, ∃ ips, getWEPIPs env w = .ok ips := by
  intro weps
  induction weps with
  | nil => intro c cnt c' cnt' h w hw; exact absurd hw (List.not_mem_nil w)
  | cons w0 rest ih =>
    intro c cnt c' cnt' h w hw
    rw [recordWEPs] at h
    cases hg : getWEPIPs env w0 with
    | error e => rw [hg] at h; exact Except.noConfusion h
    | ok ips =>
      rw [hg] at h
      dsimp only at h
      rcases List.mem_cons.mp hw with rfl | hw
      · exact ⟨ips, hg⟩
      · exact ih h w hw

theorem phase3_ok_inv {env : NetEnv} {c : IPAMChecker} {nodes : List Node}
    {c' : IPAMChecker} (h : phase3 env c nodes = Except.ok c') :
    ∃ cr cnt, recordNodes env (emitP c "Loading all nodes.") 0 nodes = .ok (cr, cnt) := by
  simp only [phase3] at h
  cases hr : recordNodes env (emitP c "Loading all nodes.") 0 nodes with
  | error e => rw [hr] at h; exact Except.noConfusion h
  | ok pr => exact ⟨pr.1, pr.2, rfl⟩

theorem phase4_ok_inv {env : NetEnv} {c : IPAMChecker} {weps : List WorkloadEndpoint}
    {c' : IPAMChecker} (h : phase4 env c weps = Except.ok c') :
    ∃ cr cnt, recordWEPs env (emitP c "Loading all workload endpoints.") 0 weps =
      .ok (cr, cnt) := by
  simp only [phase4] at h
  cases hr : recordWEPs env (emitP c "Loading all workload endpoints.") 0 weps with
  | error e => rw [hr] at h; exact Except.noConfusion h
  | ok pr => exact ⟨pr.1, pr.2, rfl⟩

/-- C4: disabled pools never enter the Active Pool Set (every member of
the set comes from an enabled pool), so an in-use address without an
allocation that no enabled pool contains is classified foreign
(non-Calico) and never missing-allocation. -/
theorem disabled_pools_excluded
    {env : NetEnv} {sa sp : Bool} {ds : DatastoreResults} {o : CheckOutcome}
    {pools : List IPPool}
    (hpools : ds.poolsResult = Except.ok pools)
    (h : checkIPAM env sa sp ds = Except.ok o) :
    (∀ cd ∈ o.activePools, ∃ p, p ∈ pools ∧ p.Disabled = false ∧
      env.parsePoolCIDR p.CIDR = some cd) ∧
    (∀ ip, mmHasKey o.inUseIPs ip = true → mmHasKey o.allocations ip = false →
      (∀ p, p ∈ pools → p.Disabled = false →
        ∀ cd, env.parsePoolCIDR p.CIDR = some cd →
          env.cidrContains cd ip = false) →
      ip ∈ o.nonCalicoIPs ∧ ip ∉ o.missingAllocIPs) := by
  obtain ⟨blocks, pools2, nodes, weps, c1, c2, ap, c3, c4, hb, h1, hp, h2, hn, h3,
    hw, h4, h5⟩ := checkIPAM_ok_inv h
  rw [hpools] at hp
  obtain rfl : pools = pools2 := Except.ok.inj hp
  obtain ⟨⟨ls, hload⟩, _, _, _, _⟩ := phase2_ok_inv h2
  obtain ⟨ha, hi, hap, hlk, hnc, hmi, hnum⟩ := phase5_ok h5
  have hprov : ∀ cd ∈ ap, ∃ q, q ∈ pools ∧ q.Disabled = false ∧
      env.parsePoolCIDR q.CIDR = some cd := fun cd hcd => loadPools_ok_mem hload cd hcd
  constructor
  · rw [hap]; exact hprov
  · intro ip hin hnotal hnopool
    have hpools0 : inActivePools env ap ip = false := by
      rw [inActivePools, List.any_eq_false]
      intro cd hcd
      obtain ⟨p, hpmem, hpd, hpc⟩ := hprov cd hcd
      simp [hnopool p hpmem hpd cd hpc]
    rw [hi] at hin
    rw [ha] at hnotal
    constructor
    · rw [hnc]
      refine List.mem_filter.mpr ⟨(mem_mmKeys _ _).mpr hin, ?_⟩
      simp [hnotal, hpools0]
    · rw [hmi]
      intro hcontra
      obtain ⟨hm, hf⟩ := List.mem_filter.mp hcontra
      simp [hnotal, hpools0] at hf

/-- C5: a node or workload address that fails to normalise produces an
error naming the owning entity and the offending raw value, and the whole
check aborts: it never returns an outcome (no classification, no summary)
when any listed node or workload has a failing address. -/
theorem parse_failure_aborts
    {env : NetEnv} {sa sp : Bool} {ds : DatastoreResults} :
    (∀ (n : Node) (e : CheckError), getNodeIPs env n = .error e →
      ∃ f raw, e = CheckError.nodeIPParseFailed f raw n.Name ∧
        env.normalise raw = none) ∧
    (∀ (w : WorkloadEndpoint) (e : CheckError), getWEPIPs env w = .error e →
      ∃ raw, raw ∈ w.IPNetworks ∧
        e = CheckError.wepIPParseFailed raw w.Namespace w.Name ∧
        env.normalise raw = none) ∧
    (∀ nodes, ds.nodesResult = Except.ok nodes →
      (∃ n ∈ nodes, ∃ e, getNodeIPs env n = .error e) →
      ∀ o, checkIPAM env sa sp ds ≠ Except.ok o) ∧
    (∀ weps, ds.wepsResult = Except.ok weps →
      (∃ w ∈ weps, ∃ e, getWEPIPs env w = .error e) →
      ∀ o, checkIPAM env sa sp ds ≠ Except.ok o) := by
  refine ⟨fun n e h => getNodeIPs_error_shape h,
    fun w e h => getWEPIPs_error_shape h, ?_, ?_⟩
  · rintro nodes hds ⟨n, hn, e, he⟩ o h
    obtain ⟨blocks, pools, nodes2, weps, c1, c2, ap, c3, c4, hb, h1, hp, h2, hn2, h3,
      hw, h4, h5⟩ := checkIPAM_ok_inv h
    rw [hds] at hn2
    obtain rfl : nodes = nodes2 := Except.ok.inj hn2
    obtain ⟨cr, cnt, hr⟩ := phase3_ok_inv h3
    obtain ⟨ips, hok⟩ := recordNodes_ok_all hr n hn
    rw [hok] at he
    exact Except.noConfusion he
  · rintro weps hds ⟨w, hwmem, e, he⟩ o h
    obtain ⟨blocks, pools, nodes, weps2, c1, c2, ap, c3, c4, hb, h1, hp, h2, hn2, h3,
      hw, h4, h5⟩ := checkIPAM_ok_inv h
    rw [hds] at hw
    obtain rfl : weps = weps2 := Except.ok.inj hw
    obtain ⟨cr, cnt, hr⟩ := phase4_ok_inv h4
    obtain ⟨ips, hok⟩ := recordWEPs_ok_all hr w hwmem
    rw [hok] at he
    exact Except.noConfusion he

end Calico

namespace Calico

/-! ## In-use index lemmas -/

theorem mmGet_append {α : Type} (m m2 : List (String × α)) (k : String) :
    mmGet (m ++ m2) k = mmGet m k ++ mmGet m2 k := by
  simp [mmGet, List.filter_append]

theorem mem_mmGet_hasKey {α : Type} {m : List (String × α)} {k : String} {x : α}
    (h : x ∈ mmGet m k) : mmHasKey m k = true := by
  rw [mmGet] at h
  obtain ⟨e, he, hx⟩ := List.mem_map.mp h
  obtain ⟨hm, hk⟩ := List.mem_filter.mp he
  exact List.any_eq_true.mpr ⟨e, hm, hk⟩

theorem recordInUseIP_fields (c : IPAMChecker) (ip fn : String) :
    (recordInUseIP c ip fn).inUseIPs =
      c.inUseIPs ++ [(ip, { FriendlyName := fn })] ∧
    (recordInUseIP c ip fn).allocations = c.allocations ∧
    (recordInUseIP c ip fn).showAllIPs = c.showAllIPs ∧
    (recordInUseIP c ip fn).showProblemIPs = c.showProblemIPs := by
  rw [recordInUseIP]
  by_cases hs : c.showAllIPs <;> simp [hs, emit]

theorem recordInUseIP_self (c : IPAMChecker) (ip fn : String) :
    (⟨fn⟩ : ownerRecord) ∈ mmGet (recordInUseIP c ip fn).inUseIPs ip := by
  rw [(recordInUseIP_fields c ip fn).1, mmGet_append]
  simp [mmGet]

theorem recordInUseIP_mono {c : IPAMChecker} {k : String} {x : ownerRecord}
    (h : x ∈ mmGet c.inUseIPs k) (ip fn : String) :
    x ∈ mmGet (recordInUseIP c ip fn).inUseIPs k := by
  rw [(recordInUseIP_fields c ip fn).1, mmGet_append]
  exact List.mem_append_left _ h

theorem printAllocation_ok {c : IPAMChecker} {ip : String} {alloc : allocation}
    {c' : IPAMChecker} (h : printAllocation c ip alloc = .ok c') :
    c'.inUseIPs = c.inUseIPs ∧ c'.allocations = c.allocations ∧
    c'.showAllIPs = c.showAllIPs ∧ c'.showProblemIPs = c.showProblemIPs := by
  rw [printAllocation] at h
  by_cases hs : c.showAllIPs
  · rw [if_pos hs] at h
    cases hg : alloc.GetAttrString with
    | none => rw [hg] at h; exact Except.noConfusion h
    | some s =>
      rw [hg] at h
      obtain rfl := Except.ok.inj h
      exact ⟨rfl, rfl, rfl, rfl⟩
  · rw [if_neg hs] at h
    obtain rfl := Except.ok.inj h
    exact ⟨rfl, rfl, rfl, rfl⟩

theorem reservedCheck_ok {c : IPAMChecker} {b : AllocationBlock} {ord : Nat}
    {ip : String} {c' : IPAMChecker} (h : reservedCheck c b ord ip = .ok c') :
    c' = c ∨ c' = recordInUseIP c ip "Reserved for Windows" := by
  rw [reservedCheck] at h
  cases hm : b.Allocations.get? ord with
  | none => rw [hm] at h; exact Except.noConfusion h
  | some om =>
    rw [hm] at h
    cases om with
    | none => exact Except.noConfusion h
    | some attrIdx =>
      dsimp only at h
      by_cases hlen : (b.Attributes.length : Int) > attrIdx
      · rw [if_pos hlen] at h
        cases hgi : goIndex b.Attributes attrIdx with
        | none => rw [hgi] at h; exact Except.noConfusion h
        | some attrs =>
          rw [hgi] at h
          dsimp only at h
          cases hap : attrs.AttrPrimary with
          | none => rw [hap] at h; exact Or.inl (Except.ok.inj h).symm
          | some p =>
            rw [hap] at h
            dsimp only at h
            by_cases hwr : p = WindowsReservedHandle
            · rw [if_pos hwr] at h; exact Or.inr (Except.ok.inj h).symm
            · rw [if_neg hwr] at h; exact Or.inl (Except.ok.inj h).symm
      · rw [if_neg hlen] at h
        exact Or.inl (Except.ok.inj h).symm

theorem reservedCheck_reserved {c : IPAMChecker} {b : AllocationBlock} {ord : Nat}
    {ip : String} {attrIdx : Int} {attrs : AllocationAttribute}
    (hord : b.Allocations.get? ord = some (some attrIdx))
    (hgi : goIndex b.Attributes attrIdx = some attrs)
    (hprim : attrs.AttrPrimary = some WindowsReservedHandle) :
    reservedCheck c b ord ip = .ok (recordInUseIP c ip "Reserved for Windows") := by
  have hlen : (b.Attributes.length : Int) > attrIdx := by
    rw [goIndex] at hgi
    by_cases hneg : attrIdx < 0
    · rw [if_pos hneg] at hgi; exact Option.noConfusion hgi
    · rw [if_neg hneg] at hgi
      have hlt : attrIdx.toNat < b.Attributes.length := (List.get?_eq_some.mp hgi).1
      omega
  rw [reservedCheck, hord]
  dsimp only
  rw [if_pos hlen, hgi]
  dsimp only
  rw [hprim]
  dsimp only
  rw [if_pos rfl]

theorem recordAllocation_ok_inUse {env : NetEnv} {c : IPAMChecker}
    {b : AllocationBlock} {ord : Nat} {c' : IPAMChecker}
    (h : recordAllocation env c b ord = .ok c') :
    (c'.inUseIPs = c.inUseIPs ∨
      c'.inUseIPs = c.inUseIPs ++
        [(env.ordinalToIP b ord, { FriendlyName := "Reserved for Windows" })]) ∧
    c'.showAllIPs = c.showAllIPs ∧ c'.showProblemIPs = c.showProblemIPs := by
  rw [recordAllocation] at h
  cases hP : printAllocation
      { c with allocations := c.allocations ++
          [(env.ordinalToIP b ord, { Block := b, Ordinal := ord })] }
      (env.ordinalToIP b ord) { Block := b, Ordinal := ord } with
  | error e => rw [hP] at h; exact Except.noConfusion h
  | ok c2 =>
    rw [hP] at h
    dsimp only at h
    obtain ⟨hi2, ha2, hsa2, hsp2⟩ := printAllocation_ok hP
    rcases reservedCheck_ok h with rfl | rfl
    · exact ⟨Or.inl hi2, hsa2, hsp2⟩
    · obtain ⟨hru, _, hru3, hru4⟩ := recordInUseIP_fields c2 (env.ordinalToIP b ord)
        "Reserved for Windows"
      exact ⟨Or.inr (by rw [hru, hi2]), by rw [hru3, hsa2], by rw [hru4, hsp2]⟩

theorem recordAllocation_reserved {env : NetEnv} {c : IPAMChecker}
    {b : AllocationBlock} {ord : Nat} {c' : IPAMChecker} {attrIdx : Int}
    {attrs : AllocationAttribute}
    (hord : b.Allocations.get? ord = some (some attrIdx))
    (hgi : goIndex b.Attributes attrIdx = some attrs)
    (hprim : attrs.AttrPrimary = some WindowsReservedHandle)
    (h : recordAllocation env c b ord = .ok c') :
    (⟨"Reserved for Windows"⟩ : ownerRecord) ∈
      mmGet c'.inUseIPs (env.ordinalToIP b ord) := by
  rw [recordAllocation] at h
  cases hP : printAllocation
      { c with allocations := c.allocations ++
          [(env.ordinalToIP b ord, { Block := b, Ordinal := ord })] }
      (env.ordinalToIP b ord) { Block := b, Ordinal := ord } with
  | error e => rw [hP] at h; exact Except.noConfusion h
  | ok c2 =>
    rw [hP] at h
    dsimp only at h
    rw [reservedCheck_reserved hord hgi hprim] at h
    obtain rfl := Except.ok.inj h
    exact recordInUseIP_self c2 (env.ordinalToIP b ord) "Reserved for Windows"

theorem mem_inUse_of_recordAllocation {env : NetEnv} {c : IPAMChecker}
    {b : AllocationBlock} {ord : Nat} {c' : IPAMChecker}
    (h : recordAllocation env c b ord = .ok c') {k : String} {x : ownerRecord}
    (hx : x ∈ mmGet c.inUseIPs k) : x ∈ mmGet c'.inUseIPs k := by
  rcases (recordAllocation_ok_inUse h).1 with h1 | h1
  · rw [h1]; exact hx
  · rw [h1, mmGet_append]; exact List.mem_append_left _ hx

theorem recordBlockLoop_mono {env : NetEnv} {b : AllocationBlock} :
    ∀ {l : List (Option Int)} {start : Nat} {c c' : IPAMChecker},
    recordBlockLoop env c b start l = .ok c' →
    ∀ {k : String} {x : ownerRecord},
    x ∈ mmGet c.inUseIPs k → x ∈ mmGet c'.inUseIPs k := by
  intro l
  induction l with
  | nil =>
    intro start c c' h k x hx
    rw [recordBlockLoop] at h
    obtain rfl := Except.ok.inj h
    exact hx
  | cons m rest ih =>
    intro start c c' h k x hx
    cases m with
    | none => exact ih (by rw [recordBlockLoop] at h; exact h) hx
    | some i =>
      rw [recordBlockLoop] at h
      cases hr : recordAllocation env c b start with
      | error e => rw [hr] at h; exact Except.noConfusion h
      | ok cM =>
        rw [hr] at h
        exact ih h (mem_inUse_of_recordAllocation hr hx)

theorem recordBlockLoop_reserved {env : NetEnv} {b : AllocationBlock}
    {attrIdx : Int} {attrs : AllocationAttribute}
    (hgi : goIndex b.Attributes attrIdx = some attrs)
    (hprim : attrs.AttrPrimary = some WindowsReservedHandle) :
    ∀ {l : List (Option Int)} {start i : Nat} {c c' : IPAMChecker},
    recordBlockLoop env c b start l = .ok c' →
    l.get? i = some (some attrIdx) →
    b.Allocations.get? (start + i) = some (some attrIdx) →
    (⟨"Reserved for Windows"⟩ : ownerRecord) ∈
      mmGet c'.inUseIPs (env.ordinalToIP b (start + i)) := by
  intro l
  induction l with
  | nil => intro start i c c' h hi hord; exact Option.noConfusion hi
  | cons m rest ih =>
    intro start i c c' h hi hord
    cases m with
    | none =>
      rw [recordBlockLoop] at h
      cases i with
      | zero => exact Option.noConfusion (Option.some.inj hi)
      | succ j =>
        have hi2 : rest.get? j = some (some attrIdx) := hi
        have harith : start + (j + 1) = (start + 1) + j := by omega
        rw [harith] at hord ⊢
        exact ih h hi2 hord
    | some m0 =>
      rw [recordBlockLoop] at h
      cases hr : recordAllocation env c b start with
      | error e => rw [hr] at h; exact Except.noConfusion h
      | ok cM =>
        rw [hr] at h
        cases i with
        | zero =>
          rw [Nat.add_zero] at hord ⊢
          exact recordBlockLoop_mono h
            (recordAllocation_reserved hord hgi hprim hr)
        | succ j =>
          have hi2 : rest.get? j = some (some attrIdx) := hi
          have harith : start + (j + 1) = (start + 1) + j := by omega
          rw [harith] at hord ⊢
          exact ih h hi2 hord

theorem recordBlocks_mono {env : NetEnv} :
    ∀ {blocks : List AllocationBlock} {c c' : IPAMChecker},
    recordBlocks env c blocks = .ok c' →
    ∀ {k : String} {x : ownerRecord},
    x ∈ mmGet c.inUseIPs k → x ∈ mmGet c'.inUseIPs k := by
  intro blocks
  induction blocks with
  | nil =>
    intro c c' h k x hx
    rw [recordBlocks] at h
    obtain rfl := Except.ok.inj h
    exact hx
  | cons b0 rest ih =>
    intro c c' h k x hx
    rw [recordBlocks] at h
    cases hr : recordBlockLoop env (emitP c (blockBanner b0)) b0 0 b0.Allocations with
    | error e => rw [hr] at h; exact Except.noConfusion h
    | ok c2 =>
      rw [hr] at h
      exact ih h (recordBlockLoop_mono hr hx)

theorem recordBlocks_reserved {env : NetEnv} {attrIdx : Int}
    {attrs : AllocationAttribute} {b : AllocationBlock} {ord : Nat}
    (hord : b.Allocations.get? ord = some (some attrIdx))
    (hgi : goIndex b.Attributes attrIdx = some attrs)
    (hprim : attrs.AttrPrimary = some WindowsReservedHandle) :
    ∀ {blocks : List AllocationBlock} {c c' : IPAMChecker},
    recordBlocks env c blocks = .ok c' → b ∈ blocks →
    (⟨"Reserved for Windows"⟩ : ownerRecord) ∈
      mmGet c'.inUseIPs (env.ordinalToIP b ord) := by
  intro blocks
  induction blocks with
  | nil => intro c c' h hb; exact absurd hb (List.not_mem_nil b)
  | cons b0 rest ih =>
    intro c c' h hb
    rw [recordBlocks] at h
    cases hr : recordBlockLoop env (emitP c (blockBanner b0)) b0 0 b0.Allocations with
    | error e => rw [hr] at h; exact Except.noConfusion h
    | ok c2 =>
      rw [hr] at h
      rcases List.mem_cons.mp hb with rfl | hb
      · have hmem := recordBlockLoop_reserved hgi hprim hr hord
          (by rw [Nat.zero_add]; exact hord)
        rw [Nat.zero_add] at hmem
        exact recordBlocks_mono h hmem
      · exact ih h hb

theorem foldl_recordInUseIP_mono {k : String} {x : ownerRecord} (fn : String) :
    ∀ (ips : List String) (c : IPAMChecker),
    x ∈ mmGet c.inUseIPs k →
    x ∈ mmGet (ips.foldl (fun acc ip => recordInUseIP acc ip fn) c).inUseIPs k := by
  intro ips
  induction ips with
  | nil => intro c hx; exact hx
  | cons ip rest ih =>
    intro c hx
    exact ih (recordInUseIP c ip fn) (recordInUseIP_mono hx ip fn)

theorem recordNodes_mono {env : NetEnv} :
    ∀ {nodes : List Node} {c : IPAMChecker} {cnt : Nat} {c' : IPAMChecker}
      {cnt' : Nat},
    recordNodes env c cnt nodes = .ok (c', cnt') →
    ∀ {k : String} {x : ownerRecord},
    x ∈ mmGet c.inUseIPs k → x ∈ mmGet c'.inUseIPs k := by
  intro nodes
  induction nodes with
  | nil =>
    intro c cnt c' cnt' h k x hx
    rw [recordNodes] at h
    obtain ⟨h3, h4⟩ := Prod.ext_iff.mp (Except.ok.inj h)
    dsimp only at h3
    rw [← h3]
    exact hx
  | cons n0 rest ih =>
    intro c cnt c' cnt' h k x hx
    rw [recordNodes] at h
    cases hg : getNodeIPs env n0 with
    | error e => rw [hg] at h; exact Except.noConfusion h
    | ok ips =>
      rw [hg] at h
      dsimp only at h
      exact ih h (foldl_recordInUseIP_mono _ ips c hx)

theorem recordWEPs_mono {env : NetEnv} :
    ∀ {weps : List WorkloadEndpoint} {c : IPAMChecker} {cnt : Nat}
      {c' : IPAMChecker} {cnt' : Nat},
    recordWEPs env c cnt weps = .ok (c', cnt') →
    ∀ {k : String} {x : ownerRecord},
    x ∈ mmGet c.inUseIPs k → x ∈ mmGet c'.inUseIPs k := by
  intro weps
  induction weps with
  | nil =>
    intro c cnt c' cnt' h k x hx
    rw [recordWEPs] at h
    obtain ⟨h3, h4⟩ := Prod.ext_iff.mp (Except.ok.inj h)
    dsimp only at h3
    rw [← h3]
    exact hx
  | cons w0 rest ih =>
    intro c cnt c' cnt' h k x hx
    rw [recordWEPs] at h
    cases hg : getWEPIPs env w0 with
    | error e => rw [hg] at h; exact Except.noConfusion h
    | ok ips =>
      rw [hg] at h
      dsimp only at h
      exact ih h (foldl_recordInUseIP_mono _ ips c hx)

theorem phase1_ok_inv {env : NetEnv} {sa sp : Bool} {blocks : List AllocationBlock}
    {c1 : IPAMChecker} (h : phase1 env sa sp blocks = Except.ok c1) :
    ∃ cR, recordBlocks env (phase1Prelude sa sp blocks) blocks = .ok cR ∧
      c1.allocations = cR.allocations ∧ c1.inUseIPs = cR.inUseIPs ∧
      c1.showAllIPs = cR.showAllIPs ∧ c1.showProblemIPs = cR.showProblemIPs := by
  rw [phase1] at h
  cases hr : recordBlocks env (phase1Prelude sa sp blocks) blocks with
  | error e => rw [hr] at h; exact Except.noConfusion h
  | ok cR =>
    rw [hr] at h
    dsimp only at h
    obtain rfl := (Except.ok.inj h).symm
    exact ⟨cR, rfl, rfl, rfl, rfl, rfl⟩

theorem phase1Prelude_fields (sa sp : Bool) (blocks : List AllocationBlock) :
    (phase1Prelude sa sp blocks).allocations = [] ∧
    (phase1Prelude sa sp blocks).inUseIPs = [] ∧
    (phase1Prelude sa sp blocks).showAllIPs = sa ∧
    (phase1Prelude sa sp blocks).showProblemIPs = sp := by
  simp [phase1Prelude, emitP, emit, NewIPAMChecker]

theorem phase3_ok_mono {env : NetEnv} {c : IPAMChecker} {nodes : List Node}
    {c' : IPAMChecker} (h : phase3 env c nodes = Except.ok c') :
    ∀ {k : String} {x : ownerRecord},
    x ∈ mmGet c.inUseIPs k → x ∈ mmGet c'.inUseIPs k := by
  intro k x hx
  simp only [phase3] at h
  cases hr : recordNodes env (emitP c "Loading all nodes.") 0 nodes with
  | error e => rw [hr] at h; exact Except.noConfusion h
  | ok pr =>
    rw [hr] at h
    dsimp only at h
    obtain rfl := (Except.ok.inj h).symm
    exact recordNodes_mono hr hx

end Calico

namespace Calico

theorem phase4_ok_mono {env : NetEnv} {c : IPAMChecker}
    {weps : List WorkloadEndpoint} {c' : IPAMChecker}
    (h : phase4 env c weps = Except.ok c') :
    ∀ {k : String} {x : ownerRecord},
    x ∈ mmGet c.inUseIPs k → x ∈ mmGet c'.inUseIPs k := by
  intro k x hx
  simp only [phase4] at h
  cases hr : recordWEPs env (emitP c "Loading all workload endpoints.") 0 weps with
  | error e => rw [hr] at h; exact Except.noConfusion h
  | ok pr =>
    rw [hr] at h
    dsimp only at h
    obtain rfl := (Except.ok.inj h).symm
    exact recordWEPs_mono hr hx

/-- C3: an allocation whose resolved attribute's primary tag is the
reserved-for-infrastructure marker is registered as in use with the
synthetic owner "Reserved for Windows" by `recordAllocation`, and over a
whole successful run such an address is never classified leaked. -/
theorem reserved_allocation_not_leaked
    {env : NetEnv} {sa sp : Bool} {ds : DatastoreResults} {o : CheckOutcome}
    {blocks : List AllocationBlock} {b : AllocationBlock} {ord : Nat}
    {attrIdx : Int} {attrs : AllocationAttribute}
    (h : checkIPAM env sa sp ds = Except.ok o)
    (hds : ds.blocksResult = Except.ok blocks) (hb : b ∈ blocks)
    (hord : b.Allocations.get? ord = some (some attrIdx))
    (hgi : goIndex b.Attributes attrIdx = some attrs)
    (hprim : attrs.AttrPrimary = some WindowsReservedHandle) :
    (∀ c c', recordAllocation env c b ord = .ok c' →
      (⟨"Reserved for Windows"⟩ : ownerRecord) ∈
        mmGet c'.inUseIPs (env.ordinalToIP b ord)) ∧
    (⟨"Reserved for Windows"⟩ : ownerRecord) ∈
      mmGet o.inUseIPs (env.ordinalToIP b ord) ∧
    env.ordinalToIP b ord ∉ o.leakedIPs := by
  obtain ⟨blocks2, pools, nodes, weps, c1, c2, ap, c3, c4, hbr, h1, hp, h2, hn, h3,
    hw, h4, h5⟩ := checkIPAM_ok_inv h
  rw [hds] at hbr
  obtain rfl : blocks = blocks2 := Except.ok.inj hbr
  obtain ⟨cR, hrec, ha1, hi1, _, _⟩ := phase1_ok_inv h1
  have hmemR := recordBlocks_reserved hord hgi hprim hrec hb
  have hmem1 : (⟨"Reserved for Windows"⟩ : ownerRecord) ∈
      mmGet c1.inUseIPs (env.ordinalToIP b ord) := by rw [hi1]; exact hmemR
  obtain ⟨_, _, hi2, _, _⟩ := phase2_ok_inv h2
  have hmem2 : (⟨"Reserved for Windows"⟩ : ownerRecord) ∈
      mmGet c2.inUseIPs (env.ordinalToIP b ord) := by rw [hi2]; exact hmem1
  have hmem3 := phase3_ok_mono h3 hmem2
  have hmem4 := phase4_ok_mono h4 hmem3
  obtain ⟨haO, hiO, hapO, hlk, hnc, hmi, hnum⟩ := phase5_ok h5
  refine ⟨fun c c' hr => recordAllocation_reserved hord hgi hprim hr, ?_, ?_⟩
  · rw [hiO]; exact hmem4
  · rw [hlk]
    intro hcontra
    obtain ⟨hm, hf⟩ := List.mem_filter.mp hcontra
    rw [Bool.not_eq_true', ← Bool.not_eq_true] at hf
    exact hf (mem_mmGet_hasKey hmem4)

end Calico

namespace Calico

/-! ## Attribute-resolution totality for non-negative markers -/

theorem goIndex_nonneg_lt {α : Type} {l : List α} {i : Int}
    (hpos : 0 ≤ i) (hlt : i < (l.length : Int)) : ∃ a, goIndex l i = some a := by
  rw [goIndex, if_neg (by omega)]
  have hl : i.toNat < l.length := by omega
  exact ⟨l.get ⟨i.toNat, hl⟩, List.get?_eq_get hl⟩

theorem GetAttrString_nonneg {b : AllocationBlock} {ord : Nat} {attrIdx : Int}
    (hord : b.Allocations.get? ord = some (some attrIdx)) (hpos : 0 ≤ attrIdx) :
    ∃ s, allocation.GetAttrString { Block := b, Ordinal := ord } = some s := by
  rw [allocation.GetAttrString]
  dsimp only
  rw [hord]
  dsimp only
  by_cases hlen : (b.Attributes.length : Int) > attrIdx
  · rw [if_pos hlen]
    obtain ⟨a, ha⟩ := goIndex_nonneg_lt hpos hlen
    rw [ha]
    exact ⟨_, rfl⟩
  · rw [if_neg hlen]
    exact ⟨_, rfl⟩

theorem printAllocation_ok_exists {c : IPAMChecker} {ip : String}
    {alloc : allocation} (hs : ∃ s, alloc.GetAttrString = some s) :
    ∃ c', printAllocation c ip alloc = .ok c' := by
  obtain ⟨s, hg⟩ := hs
  rw [printAllocation]
  by_cases ha : c.showAllIPs
  · rw [if_pos ha, hg]; exact ⟨_, rfl⟩
  · rw [if_neg ha]; exact ⟨_, rfl⟩

theorem reservedCheck_ok_exists {c : IPAMChecker} {b : AllocationBlock}
    {ord : Nat} {ip : String} {attrIdx : Int}
    (hord : b.Allocations.get? ord = some (some attrIdx)) (hpos : 0 ≤ attrIdx) :
    ∃ c', reservedCheck c b ord ip = .ok c' := by
  rw [reservedCheck, hord]
  dsimp only
  by_cases hlen : (b.Attributes.length : Int) > attrIdx
  · rw [if_pos hlen]
    obtain ⟨attrs, ha⟩ := goIndex_nonneg_lt hpos hlen
    rw [ha]
    dsimp only
    cases attrs.AttrPrimary with
    | none => exact ⟨_, rfl⟩
    | some p =>
      dsimp only
      by_cases hwr : p = WindowsReservedHandle
      · rw [if_pos hwr]; exact ⟨_, rfl⟩
      · rw [if_neg hwr]; exact ⟨_, rfl⟩
  · rw [if_neg hlen]
    exact ⟨_, rfl⟩

theorem recordAllocation_ok_exists (env : NetEnv) (c : IPAMChecker)
    {b : AllocationBlock} {ord : Nat} {attrIdx : Int}
    (hord : b.Allocations.get? ord = some (some attrIdx)) (hpos : 0 ≤ attrIdx) :
    ∃ c', recordAllocation env c b ord = .ok c' := by
  rw [recordAllocation]
  obtain ⟨c2, hP⟩ := @printAllocation_ok_exists
    { c with allocations := c.allocations ++
        [(env.ordinalToIP b ord, { Block := b, Ordinal := ord })] }
    (env.ordinalToIP b ord) { Block := b, Ordinal := ord }
    (GetAttrString_nonneg hord hpos)
  rw [hP]
  exact reservedCheck_ok_exists hord hpos

/-- C6 (amended): for a non-negative allocation marker the resolution is
total — `GetAttrString` returns a display string, `<missing>` whenever the
marker is not smaller than the attribute-table length, and
`recordAllocation` never panics; a negative marker, by contrast, faults
(see the counterexample). -/
theorem attr_index_out_of_range_soft
    {b : AllocationBlock} {ord : Nat} {attrIdx : Int}
    (hord : b.Allocations.get? ord = some (some attrIdx)) (hpos : 0 ≤ attrIdx) :
    (∃ s, allocation.GetAttrString { Block := b, Ordinal := ord } = some s) ∧
    ((b.Attributes.length : Int) ≤ attrIdx →
      allocation.GetAttrString { Block := b, Ordinal := ord } = some "<missing>") ∧
    (∀ (env : NetEnv) (c : IPAMChecker),
      ∃ c', recordAllocation env c b ord = .ok c') := by
  refine ⟨GetAttrString_nonneg hord hpos, ?_, fun env c => recordAllocation_ok_exists env c hord hpos⟩
  intro hle
  rw [allocation.GetAttrString]
  dsimp only
  rw [hord]
  dsimp only
  rw [if_neg (by omega)]

/-! ## Concrete fixtures -/

/-- A concrete instance of the external address interface used for the
closed witness runs: normalisation fails exactly on `"bad"`, pool parsing
fails exactly on `"badpool"`, containment is string equality, and an
ordinal's address is `<block CIDR>#<ordinal>`. -/
def envA : NetEnv :=
  { normalise := fun s => if s = "bad" then none else some s,
    parsePoolCIDR := fun s => if s = "badpool" then none else some s,
    cidrContains := fun c ip => c == ip,
    ordinalToIP := fun b ord => b.CIDR ++ "#" ++ toString ord }

/-- A block whose only allocation marker is the negative index `-1` with
an empty attribute table: the Go length test `len(Attributes) > attrIdx`
passes and the indexing panics. -/
def negIdxBlock : AllocationBlock :=
  { CIDR := "10.0.0.0/26", Affinity := none,
    Allocations := [some (-1)], Attributes := [] }

/-- C6 counterexample: at the marker `-1` — out of range for the empty
attribute table — `GetAttrString` does not yield `<missing>` but faults
(`none` models the panic), and `recordAllocation` panics instead of
continuing. -/
theorem attr_index_negative_faults :
    allocation.GetAttrString { Block := negIdxBlock, Ordinal := 0 } = none ∧
    allocation.GetAttrString { Block := negIdxBlock, Ordinal := 0 } ≠
      some "<missing>" ∧
    recordAllocation envA (NewIPAMChecker false false) negIdxBlock 0 =
      Except.error CheckError.panic := by
  refine ⟨rfl, by decide, rfl⟩

/-- C8: the check never mutates the datastore: each listing call returns
the store unchanged, and a whole run on a store leaves the store exactly
as it was — blocks, pools, nodes, workload endpoints and all other
records. -/
theorem check_never_mutates_store (env : NetEnv) (sa sp : Bool) (s : Datastore) :
    (listBlocks s).2 = s ∧ (listIPPools s).2 = s ∧ (listNodes s).2 = s ∧
    (listWorkloadEndpoints s).2 = s ∧ (checkIPAMOnStore env sa sp s).2 = s :=
  ⟨rfl, rfl, rfl, rfl, rfl⟩

end Calico

namespace Calico

/-! ## Totality of a run with parseable data (no panic, no parse error) -/

/-- Every allocation entry of the index can render its attribute string
(no pending panic for the scan phase). -/
def goodAllocs (m : List (String × allocation)) : Prop :=
  ∀ e ∈ m, ∃ s, e.2.GetAttrString = some s

theorem reservedCheck_ok_allocations {c : IPAMChecker} {b : AllocationBlock}
    {ord : Nat} {ip : String} {c' : IPAMChecker}
    (h : reservedCheck c b ord ip = .ok c') : c'.allocations = c.allocations := by
  rcases reservedCheck_ok h with rfl | rfl
  · rfl
  · exact (recordInUseIP_fields c ip "Reserved for Windows").2.1

theorem recordAllocation_allocations {env : NetEnv} {c : IPAMChecker}
    {b : AllocationBlock} {ord : Nat} {c' : IPAMChecker}
    (h : recordAllocation env c b ord = .ok c') :
    c'.allocations = c.allocations ++
      [(env.ordinalToIP b ord, { Block := b, Ordinal := ord })] := by
  rw [recordAllocation] at h
  cases hP : printAllocation
      { c with allocations := c.allocations ++
          [(env.ordinalToIP b ord, { Block := b, Ordinal := ord })] }
      (env.ordinalToIP b ord) { Block := b, Ordinal := ord } with
  | error e => rw [hP] at h; exact Except.noConfusion h
  | ok c2 =>
    rw [hP] at h
    dsimp only at h
    rw [reservedCheck_ok_allocations h, (printAllocation_ok hP).2.1]

theorem recordBlockLoop_ok_good {env : NetEnv} {b : AllocationBlock} :
    ∀ {l : List (Option Int)} {start : Nat} {c : IPAMChecker},
    (∀ j x, l.get? j = some x → b.Allocations.get? (start + j) = some x) →
    (∀ j i, l.get? j = some (some i) → 0 ≤ i) →
    goodAllocs c.allocations →
    ∃ c', recordBlockLoop env c b start l = .ok c' ∧ goodAllocs c'.allocations := by
  intro l
  induction l with
  | nil => intro start c hco hnn hg; exact ⟨c, rfl, hg⟩
  | cons m rest ih =>
    intro start c hco hnn hg
    cases m with
    | none =>
      rw [recordBlockLoop]
      exact ih (fun j x hj => by
          have := hco (j + 1) x hj
          rwa [show start + (j + 1) = (start + 1) + j by omega] at this)
        (fun j i hj => hnn (j + 1) i hj) hg
    | some i =>
      have hord : b.Allocations.get? start = some (some i) := by
        have := hco 0 (some i) rfl
        rwa [Nat.add_zero] at this
      have hpos : 0 ≤ i := hnn 0 i rfl
      obtain ⟨cM, hM⟩ := recordAllocation_ok_exists env c hord hpos
      rw [recordBlockLoop, hM]
      refine ih (fun j x hj => by
          have := hco (j + 1) x hj
          rwa [show start + (j + 1) = (start + 1) + j by omega] at this)
        (fun j i2 hj => hnn (j + 1) i2 hj) ?_
      rw [recordAllocation_allocations hM]
      intro e he
      rcases List.mem_append.mp he with he | he
      · exact hg e he
      · obtain rfl := List.mem_singleton.mp he
        exact GetAttrString_nonneg hord hpos

theorem recordBlocks_ok_good {env : NetEnv} :
    ∀ {blocks : List AllocationBlock} {c : IPAMChecker},
    (∀ b ∈ blocks, ∀ m ∈ b.Allocations, ∀ i, m = some i → 0 ≤ i) →
    goodAllocs c.allocations →
    ∃ c', recordBlocks env c blocks = .ok c' ∧ goodAllocs c'.allocations := by
  intro blocks
  induction blocks with
  | nil => intro c hnn hg; exact ⟨c, rfl, hg⟩
  | cons b0 rest ih =>
    intro c hnn hg
    have hco : ∀ j x, b0.Allocations.get? j = some x →
        b0.Allocations.get? (0 + j) = some x := by
      intro j x hj; rwa [Nat.zero_add]
    have hnn0 : ∀ j i, b0.Allocations.get? j = some (some i) → 0 ≤ i := by
      intro j i hj
      exact hnn b0 (List.mem_cons_self ..) (some i) (List.get?_mem hj) i rfl
    obtain ⟨c2, h2, hg2⟩ := recordBlockLoop_ok_good (c := emitP c (blockBanner b0))
      hco hnn0 hg
    rw [recordBlocks, h2]
    exact ih (fun b hb => hnn b (List.mem_cons_of_mem _ hb)) hg2

theorem loadPools_ok_exists {env : NetEnv} :
    ∀ {pools : List IPPool},
    (∀ p ∈ pools, p.Disabled = false → (env.parsePoolCIDR p.CIDR).isSome = true) →
    ∃ r, loadPools env pools = .ok r := by
  intro pools
  induction pools with
  | nil => exact fun _ => ⟨([], []), rfl⟩
  | cons p rest ih =>
    intro hp
    obtain ⟨r, hr⟩ := ih (fun q hq => hp q (List.mem_cons_of_mem _ hq))
    rw [loadPools]
    by_cases hd : p.Disabled
    · rw [if_pos hd]; exact ⟨r, hr⟩
    · rw [if_neg hd]
      obtain ⟨cd, hcd⟩ := Option.isSome_iff_exists.mp
        (hp p (List.mem_cons_self ..) (Bool.not_eq_true _ ▸ hd))
      rw [hcd, hr]
      exact ⟨_, rfl⟩

theorem nodeAddrStep_ok_exists {env : NetEnv} {f raw nm : String}
    (h : raw ≠ "" → (env.normalise raw).isSome = true) :
    ∃ ips, nodeAddrStep env f raw nm = .ok ips := by
  rw [nodeAddrStep]
  by_cases hr : raw = ""
  · rw [if_neg (by simp [hr])]; exact ⟨_, rfl⟩
  · rw [if_pos hr]
    obtain ⟨ip, hip⟩ := Option.isSome_iff_exists.mp (h hr)
    rw [normaliseIP, hip]
    exact ⟨_, rfl⟩

theorem getNodeIPs_ok_exists {env : NetEnv} {n : Node}
    (h1 : n.Spec.IPv4VXLANTunnelAddr ≠ "" →
      (env.normalise n.Spec.IPv4VXLANTunnelAddr).isSome = true)
    (h2 : ∀ wg, n.Spec.Wireguard = some wg → wg.InterfaceIPv4Address ≠ "" →
      (env.normalise wg.InterfaceIPv4Address).isSome = true)
    (h3 : ∀ bgp, n.Spec.BGP = some bgp → bgp.IPv4IPIPTunnelAddr ≠ "" →
      (env.normalise bgp.IPv4IPIPTunnelAddr).isSome = true) :
    ∃ ips, getNodeIPs env n = .ok ips := by
  rw [getNodeIPs]
  obtain ⟨ips1, hs1⟩ := @nodeAddrStep_ok_exists env "IPv4VXLANTunnelAddr"
    n.Spec.IPv4VXLANTunnelAddr n.Name h1
  rw [hs1]
  dsimp only
  have hs2 : ∃ ips2, (match n.Spec.Wireguard with
      | some wg => nodeAddrStep env "Wireguard.InterfaceIPv4Address"
          wg.InterfaceIPv4Address n.Name
      | none => Except.ok []) = Except.ok ips2 := by
    cases hwg : n.Spec.Wireguard with
    | none => exact ⟨[], rfl⟩
    | some wg => exact nodeAddrStep_ok_exists (h2 wg hwg)
  obtain ⟨ips2, hs2⟩ := hs2
  rw [hs2]
  dsimp only
  have hs3 : ∃ ips3, (match n.Spec.BGP with
      | some bgp => nodeAddrStep env "IPv4IPIPTunnelAddr"
          bgp.IPv4IPIPTunnelAddr n.Name
      | none => Except.ok []) = Except.ok ips3 := by
    cases hbgp : n.Spec.BGP with
    | none => exact ⟨[], rfl⟩
    | some bgp => exact nodeAddrStep_ok_exists (h3 bgp hbgp)
  obtain ⟨ips3, hs3⟩ := hs3
  rw [hs3]
  exact ⟨_, rfl⟩

theorem getWEPIPsLoop_ok_exists {env : NetEnv} {w : WorkloadEndpoint} :
    ∀ {l : List String}, (∀ a ∈ l, (env.normalise a).isSome = true) →
    ∃ ips, getWEPIPsLoop env w l = .ok ips := by
  intro l
  induction l with
  | nil => exact fun _ => ⟨[], rfl⟩
  | cons a rest ih =>
    intro h
    obtain ⟨ip, hip⟩ := Option.isSome_iff_exists.mp (h a (List.mem_cons_self ..))
    obtain ⟨ips, hips⟩ := ih (fun x hx => h x (List.mem_cons_of_mem _ hx))
    rw [getWEPIPsLoop, normaliseIP, hip]
    dsimp only
    rw [hips]
    exact ⟨_, rfl⟩

theorem foldl_recordInUseIP_allocations (fn : String) :
    ∀ (ips : List String) (c : IPAMChecker),
    (ips.foldl (fun acc ip => recordInUseIP acc ip fn) c).allocations =
      c.allocations := by
  intro ips
  induction ips with
  | nil => intro c; rfl
  | cons ip rest ih =>
    intro c
    rw [List.foldl_cons, ih, (recordInUseIP_fields c ip fn).2.1]

theorem recordNodes_ok_exists {env : NetEnv} :
    ∀ {nodes : List Node},
    (∀ n ∈ nodes, ∃ ips, getNodeIPs env n = .ok ips) →
    ∀ (c : IPAMChecker) (cnt : Nat),
    ∃ c' cnt', recordNodes env c cnt nodes = .ok (c', cnt') ∧
      c'.allocations = c.allocations := by
  intro nodes
  induction nodes with
  | nil => intro h c cnt; exact ⟨c, cnt, rfl, rfl⟩
  | cons n0 rest ih =>
    intro h c cnt
    obtain ⟨ips, hips⟩ := h n0 (List.mem_cons_self ..)
    obtain ⟨c', cnt', hr, ha⟩ := ih (fun n hn => h n (List.mem_cons_of_mem _ hn))
      (ips.foldl (fun acc ip => recordInUseIP acc ip (nodeLabel n0)) c)
      (cnt + ips.length)
    rw [recordNodes, hips]
    dsimp only
    refine ⟨c', cnt', hr, ?_⟩
    rw [ha, foldl_recordInUseIP_allocations]

theorem recordWEPs_ok_exists {env : NetEnv} :
    ∀ {weps : List WorkloadEndpoint},
    (∀ w ∈ weps, ∃ ips, getWEPIPs env w = .ok ips) →
    ∀ (c : IPAMChecker) (cnt : Nat),
    ∃ c' cnt', recordWEPs env c cnt weps = .ok (c', cnt') ∧
      c'.allocations = c.allocations := by
  intro weps
  induction weps with
  | nil => intro h c cnt; exact ⟨c, cnt, rfl, rfl⟩
  | cons w0 rest ih =>
    intro h c cnt
    obtain ⟨ips, hips⟩ := h w0 (List.mem_cons_self ..)
    obtain ⟨c', cnt', hr, ha⟩ := ih (fun w hw => h w (List.mem_cons_of_mem _ hw))
      (ips.foldl (fun acc ip => recordInUseIP acc ip (wepLabel w0)) c)
      (cnt + ips.length)
    rw [recordWEPs, hips]
    dsimp only
    refine ⟨c', cnt', hr, ?_⟩
    rw [ha, foldl_recordInUseIP_allocations]

end Calico

namespace Calico

theorem mem_mmGet_entry {α : Type} {m : List (String × α)} {k : String} {x : α}
    (h : x ∈ mmGet m k) : (k, x) ∈ m := by
  rw [mmGet] at h
  obtain ⟨e, he, hx⟩ := List.mem_map.mp h
  obtain ⟨hm, hk⟩ := List.mem_filter.mp he
  have hk2 : e.1 = k := by simpa using hk
  have : e = (k, x) := by
    obtain ⟨e1, e2⟩ := e
    simp only at hk2 hx
    rw [hk2, hx]
  rwa [this] at hm

theorem leakedLines_ok_exists {ip : String} :
    ∀ {allocs : List allocation},
    (∀ a ∈ allocs, ∃ s, a.GetAttrString = some s) →
    ∃ ls, leakedLines ip allocs = .ok ls := by
  intro allocs
  induction allocs with
  | nil => exact fun _ => ⟨[], rfl⟩
  | cons a rest ih =>
    intro h
    obtain ⟨s, hs⟩ := h a (List.mem_cons_self ..)
    obtain ⟨ls, hls⟩ := ih (fun x hx => h x (List.mem_cons_of_mem _ hx))
    rw [leakedLines, hs]
    dsimp only
    rw [hls]
    exact ⟨_, rfl⟩

theorem scanAllocations_ok_exists {sp : Bool} {am : List (String × allocation)}
    {im : List (String × ownerRecord)} (hg : goodAllocs am) :
    ∀ order : List String, ∃ r, scanAllocations sp am im order = .ok r := by
  intro order
  induction order with
  | nil => exact ⟨([], []), rfl⟩
  | cons ip rest ih =>
    obtain ⟨r, hr⟩ := ih
    rw [scanAllocations]
    by_cases hk : mmHasKey im ip
    · rw [if_pos hk]; exact ⟨r, hr⟩
    · rw [if_neg hk]
      have hlines : ∃ ls, (if sp then leakedLines ip (mmGet am ip)
          else Except.ok []) = Except.ok ls := by
        by_cases hsp : sp
        · rw [if_pos hsp]
          exact leakedLines_ok_exists
            (fun a ha => hg (ip, a) (mem_mmGet_entry ha))
        · rw [if_neg hsp]; exact ⟨[], rfl⟩
      obtain ⟨ls, hls⟩ := hlines
      rw [hls]
      dsimp only
      rw [hr]
      exact ⟨_, rfl⟩

theorem phase5_ok_exists {env : NetEnv} {c : IPAMChecker} {ap : List String}
    (hg : goodAllocs c.allocations) :
    ∃ o, phase5 env c ap = Except.ok o := by
  simp only [phase5, emitP, emit]
  obtain ⟨r, hr⟩ := @scanAllocations_ok_exists c.showProblemIPs c.allocations
    c.inUseIPs hg (mmKeys c.allocations)
  obtain ⟨lines1, leaked⟩ := r
  rw [hr]
  exact ⟨_, rfl⟩

theorem phase1_ok_exists {env : NetEnv} {sa sp : Bool}
    {blocks : List AllocationBlock}
    (hnn : ∀ b ∈ blocks, ∀ m ∈ b.Allocations, ∀ i, m = some i → 0 ≤ i) :
    ∃ c1, phase1 env sa sp blocks = Except.ok c1 ∧ goodAllocs c1.allocations := by
  obtain ⟨cR, hR, hgR⟩ := @recordBlocks_ok_good env blocks
    (phase1Prelude sa sp blocks) hnn
    (by intro e he; rw [(phase1Prelude_fields sa sp blocks).1] at he
        exact absurd he (List.not_mem_nil e))
  rw [phase1, hR]
  exact ⟨_, rfl, hgR⟩

theorem phase2_ok_exists {env : NetEnv} {pools : List IPPool} (c : IPAMChecker)
    (hp : ∀ p ∈ pools, p.Disabled = false →
      (env.parsePoolCIDR p.CIDR).isSome = true) :
    ∃ c' ap, phase2 env c pools = Except.ok (c', ap) ∧
      c'.allocations = c.allocations ∧ c'.inUseIPs = c.inUseIPs ∧
      c'.showAllIPs = c.showAllIPs ∧ c'.showProblemIPs = c.showProblemIPs := by
  obtain ⟨r, hr⟩ := loadPools_ok_exists hp
  rw [phase2, hr]
  obtain ⟨ls, ap⟩ := r
  exact ⟨_, ap, rfl, rfl, rfl, rfl, rfl⟩

theorem phase3_ok_exists {env : NetEnv} {nodes : List Node} (c : IPAMChecker)
    (h : ∀ n ∈ nodes, ∃ ips, getNodeIPs env n = .ok ips) :
    ∃ c', phase3 env c nodes = Except.ok c' ∧
      c'.allocations = c.allocations := by
  obtain ⟨cr, cnt, hr, ha⟩ := recordNodes_ok_exists h
    (emitP c "Loading all nodes.") 0
  simp only [phase3]
  rw [hr]
  exact ⟨_, rfl, ha⟩

theorem phase4_ok_exists {env : NetEnv} {weps : List WorkloadEndpoint}
    (c : IPAMChecker) (h : ∀ w ∈ weps, ∃ ips, getWEPIPs env w = .ok ips) :
    ∃ c', phase4 env c weps = Except.ok c' ∧
      c'.allocations = c.allocations := by
  obtain ⟨cr, cnt, hr, ha⟩ := recordWEPs_ok_exists h
    (emitP c "Loading all workload endpoints.") 0
  simp only [phase4]
  rw [hr]
  exact ⟨_, rfl, ha⟩

/-- C10 (amended): when the four listings succeed, every allocation marker
is non-negative (no attribute-index panic), every enabled pool CIDR
parses, and every node and workload address normalises, the check returns
success — findings are reported only through the printed output, never as
an error return. -/
theorem findings_never_error
    {env : NetEnv} {sa sp : Bool} {ds : DatastoreResults}
    {blocks : List AllocationBlock} {pools : List IPPool} {nodes : List Node}
    {weps : List WorkloadEndpoint}
    (hb : ds.blocksResult = Except.ok blocks)
    (hp : ds.poolsResult = Except.ok pools)
    (hn : ds.nodesResult = Except.ok nodes)
    (hw : ds.wepsResult = Except.ok weps)
    (hnn : ∀ b ∈ blocks, ∀ m ∈ b.Allocations, ∀ i, m = some i → 0 ≤ i)
    (hpool : ∀ p ∈ pools, p.Disabled = false →
      (env.parsePoolCIDR p.CIDR).isSome = true)
    (hnode : ∀ n ∈ nodes,
      (n.Spec.IPv4VXLANTunnelAddr ≠ "" →
        (env.normalise n.Spec.IPv4VXLANTunnelAddr).isSome = true) ∧
      (∀ wg, n.Spec.Wireguard = some wg → wg.InterfaceIPv4Address ≠ "" →
        (env.normalise wg.InterfaceIPv4Address).isSome = true) ∧
      (∀ bgp, n.Spec.BGP = some bgp → bgp.IPv4IPIPTunnelAddr ≠ "" →
        (env.normalise bgp.IPv4IPIPTunnelAddr).isSome = true))
    (hwep : ∀ w ∈ weps, ∀ a ∈ w.IPNetworks,
      (env.normalise a).isSome = true) :
    ∃ o, checkIPAM env sa sp ds = Except.ok o := by
  obtain ⟨c1, h1, hg1⟩ := @phase1_ok_exists env sa sp blocks hnn
  obtain ⟨c2, ap, h2, ha2, _, _, _⟩ := @phase2_ok_exists env pools c1 hpool
  obtain ⟨c3, h3, ha3⟩ := @phase3_ok_exists env nodes c2
    (fun n hn2 => getNodeIPs_ok_exists (hnode n hn2).1 (hnode n hn2).2.1
      (hnode n hn2).2.2)
  obtain ⟨c4, h4, ha4⟩ := @phase4_ok_exists env weps c3
    (fun w hw2 => getWEPIPsLoop_ok_exists (fun a haz => hwep w hw2 a haz))
  have hg4 : goodAllocs c4.allocations := by
    rw [ha4, ha3, ha2]
    exact hg1
  obtain ⟨o, h5⟩ := @phase5_ok_exists env c4 ap hg4
  refine ⟨o, ?_⟩
  rw [checkIPAM, hb]
  dsimp only
  rw [h1]
  dsimp only
  rw [hp]
  dsimp only
  rw [h2]
  dsimp only
  rw [hn]
  dsimp only
  rw [h3]
  dsimp only
  rw [hw]
  dsimp only
  rw [h4]
  dsimp only
  exact h5

/-- C10 counterexample: with all four listings succeeding, no nodes and no
workloads (so every address trivially normalises), a single enabled pool
whose CIDR does not parse makes the check return an error, not success. -/
theorem pool_parse_error_despite_good_listings :
    ({ blocksResult := Except.ok [],
       poolsResult := Except.ok [{ CIDR := "badpool", Disabled := false }],
       nodesResult := Except.ok [], wepsResult := Except.ok [] } :
      DatastoreResults).blocksResult = Except.ok [] ∧
    checkIPAM envA true true
      { blocksResult := Except.ok [],
        poolsResult := Except.ok [{ CIDR := "badpool", Disabled := false }],
        nodesResult := Except.ok [], wepsResult := Except.ok [] } =
      Except.error (CheckError.poolParseFailed "badpool") := ⟨rfl, rfl⟩

end Calico

namespace Calico

/-! ## Output gating lemmas -/

/-- No line of the transcript has the given class. -/
def NoClass (cl : LineClass) (t : List OutLine) : Prop := ∀ l ∈ t, l.1 ≠ cl

theorem NoClass_append {cl : LineClass} {t1 t2 : List OutLine}
    (h1 : NoClass cl t1) (h2 : NoClass cl t2) : NoClass cl (t1 ++ t2) := by
  intro l hl
  rcases List.mem_append.mp hl with hl | hl
  · exact h1 l hl
  · exact h2 l hl

theorem NoClass_emitP {cl : LineClass} {c : IPAMChecker} {s : String}
    (hcl : cl ≠ LineClass.progress) (h : NoClass cl c.transcript) :
    NoClass cl (emitP c s).transcript := by
  refine NoClass_append h ?_
  intro l hl
  obtain rfl := List.mem_singleton.mp hl
  exact fun hc => hcl hc.symm

theorem recordInUseIP_transcript_flag_off {c : IPAMChecker} {ip fn : String}
    (hs : c.showAllIPs = false) :
    (recordInUseIP c ip fn).transcript = c.transcript := by
  rw [recordInUseIP, hs]
  simp

theorem recordInUseIP_noProblem {c : IPAMChecker} {ip fn : String}
    (h : NoClass LineClass.problemIP c.transcript) :
    NoClass LineClass.problemIP (recordInUseIP c ip fn).transcript := by
  rw [recordInUseIP]
  by_cases hs : c.showAllIPs
  · simp only [hs, if_pos, if_true, ite_true, emit]
    refine NoClass_append h ?_
    intro l hl
    obtain rfl := List.mem_singleton.mp hl
    exact fun hc => LineClass.noConfusion hc
  · simp only [hs, if_false, ite_false, Bool.false_eq_true]
    exact h

end Calico

namespace Calico

theorem recordInUseIP_gating (c : IPAMChecker) (ip fn : String) :
    (NoClass LineClass.problemIP c.transcript →
      NoClass LineClass.problemIP (recordInUseIP c ip fn).transcript) ∧
    (c.showAllIPs = false → NoClass LineClass.allIP c.transcript →
      NoClass LineClass.allIP (recordInUseIP c ip fn).transcript) :=
  ⟨recordInUseIP_noProblem,
   fun hs h => by rw [recordInUseIP_transcript_flag_off hs]; exact h⟩

theorem printAllocation_gating {c : IPAMChecker} {ip : String}
    {alloc : allocation} {c' : IPAMChecker}
    (h : printAllocation c ip alloc = .ok c') :
    (NoClass LineClass.problemIP c.transcript →
      NoClass LineClass.problemIP c'.transcript) ∧
    (c.showAllIPs = false → c'.transcript = c.transcript) := by
  rw [printAllocation] at h
  by_cases hs : c.showAllIPs
  · rw [if_pos hs] at h
    cases hg : alloc.GetAttrString with
    | none => rw [hg] at h; exact Except.noConfusion h
    | some s =>
      rw [hg] at h
      obtain rfl := Except.ok.inj h
      refine ⟨?_, fun hs2 => by rw [hs2] at hs; exact Bool.noConfusion hs⟩
      intro hn
      refine NoClass_append hn ?_
      intro l hl
      obtain rfl := List.mem_singleton.mp hl
      exact fun hc => LineClass.noConfusion hc
  · rw [if_neg hs] at h
    obtain rfl := Except.ok.inj h
    exact ⟨fun hn => hn, fun _ => rfl⟩

theorem reservedCheck_gating {c : IPAMChecker} {b : AllocationBlock} {ord : Nat}
    {ip : String} {c' : IPAMChecker} (h : reservedCheck c b ord ip = .ok c') :
    (NoClass LineClass.problemIP c.transcript →
      NoClass LineClass.problemIP c'.transcript) ∧
    (c.showAllIPs = false → NoClass LineClass.allIP c.transcript →
      NoClass LineClass.allIP c'.transcript) := by
  rcases reservedCheck_ok h with rfl | rfl
  · exact ⟨fun hn => hn, fun _ hn => hn⟩
  · exact recordInUseIP_gating c ip "Reserved for Windows"

theorem recordAllocation_gating {env : NetEnv} {c : IPAMChecker}
    {b : AllocationBlock} {ord : Nat} {c' : IPAMChecker}
    (h : recordAllocation env c b ord = .ok c') :
    (NoClass LineClass.problemIP c.transcript →
      NoClass LineClass.problemIP c'.transcript) ∧
    (c.showAllIPs = false → NoClass LineClass.allIP c.transcript →
      NoClass LineClass.allIP c'.transcript) := by
  have hflags := (recordAllocation_ok_inUse h).2
  rw [recordAllocation] at h
  cases hP : printAllocation
      { c with allocations := c.allocations ++
          [(env.ordinalToIP b ord, { Block := b, Ordinal := ord })] }
      (env.ordinalToIP b ord) { Block := b, Ordinal := ord } with
  | error e => rw [hP] at h; exact Except.noConfusion h
  | ok c2 =>
    rw [hP] at h
    dsimp only at h
    obtain ⟨hpp, hpa⟩ := printAllocation_gating hP
    obtain ⟨hrp, hra⟩ := reservedCheck_gating h
    have hsa2 : c2.showAllIPs = c.showAllIPs := (printAllocation_ok hP).2.2.1
    constructor
    · exact fun hn => hrp (hpp hn)
    · intro hs hn
      refine hra (by rw [hsa2]; exact hs) ?_
      rw [hpa hs]
      exact hn

theorem recordBlockLoop_gating {env : NetEnv} {b : AllocationBlock} :
    ∀ {l : List (Option Int)} {start : Nat} {c c' : IPAMChecker},
    recordBlockLoop env c b start l = .ok c' →
    c'.showAllIPs = c.showAllIPs ∧
    (NoClass LineClass.problemIP c.transcript →
      NoClass LineClass.problemIP c'.transcript) ∧
    (c.showAllIPs = false → NoClass LineClass.allIP c.transcript →
      NoClass LineClass.allIP c'.transcript) := by
  intro l
  induction l with
  | nil =>
    intro start c c' h
    rw [recordBlockLoop] at h
    obtain rfl := Except.ok.inj h
    exact ⟨rfl, fun hn => hn, fun _ hn => hn⟩
  | cons m rest ih =>
    intro start c c' h
    cases m with
    | none =>
      rw [recordBlockLoop] at h
      exact ih h
    | some i =>
      rw [recordBlockLoop] at h
      cases hr : recordAllocation env c b start with
      | error e => rw [hr] at h; exact Except.noConfusion h
      | ok cM =>
        rw [hr] at h
        obtain ⟨hsM, hpM, haM⟩ := ih h
        have hfM := (recordAllocation_ok_inUse hr).2.1
        obtain ⟨hpA, haA⟩ := recordAllocation_gating hr
        refine ⟨by rw [hsM, hfM], fun hn => hpM (hpA hn), ?_⟩
        intro hs hn
        exact haM (by rw [hfM]; exact hs) (haA hs hn)

theorem recordBlocks_gating {env : NetEnv} :
    ∀ {blocks : List AllocationBlock} {c c' : IPAMChecker},
    recordBlocks env c blocks = .ok c' →
    c'.showAllIPs = c.showAllIPs ∧
    (NoClass LineClass.problemIP c.transcript →
      NoClass LineClass.problemIP c'.transcript) ∧
    (c.showAllIPs = false → NoClass LineClass.allIP c.transcript →
      NoClass LineClass.allIP c'.transcript) := by
  intro blocks
  induction blocks with
  | nil =>
    intro c c' h
    rw [recordBlocks] at h
    obtain rfl := Except.ok.inj h
    exact ⟨rfl, fun hn => hn, fun _ hn => hn⟩
  | cons b0 rest ih =>
    intro c c' h
    rw [recordBlocks] at h
    cases hr : recordBlockLoop env (emitP c (blockBanner b0)) b0 0 b0.Allocations with
    | error e => rw [hr] at h; exact Except.noConfusion h
    | ok c2 =>
      rw [hr] at h
      obtain ⟨hs2, hp2, ha2⟩ := recordBlockLoop_gating hr
      obtain ⟨hsR, hpR, haR⟩ := ih h
      refine ⟨by rw [hsR, hs2]; rfl, ?_, ?_⟩
      · intro hn
        exact hpR (hp2 (NoClass_emitP (fun hc => LineClass.noConfusion hc) hn))
      · intro hs hn
        refine haR (by rw [hs2]; exact hs) ?_
        exact ha2 hs (NoClass_emitP (fun hc => LineClass.noConfusion hc) hn)

theorem foldl_recordInUseIP_gating (fn : String) :
    ∀ (ips : List String) (c : IPAMChecker),
    (ips.foldl (fun acc ip => recordInUseIP acc ip fn) c).showAllIPs =
        c.showAllIPs ∧
    (NoClass LineClass.problemIP c.transcript →
      NoClass LineClass.problemIP
        (ips.foldl (fun acc ip => recordInUseIP acc ip fn) c).transcript) ∧
    (c.showAllIPs = false → NoClass LineClass.allIP c.transcript →
      NoClass LineClass.allIP
        (ips.foldl (fun acc ip => recordInUseIP acc ip fn) c).transcript) := by
  intro ips
  induction ips with
  | nil => intro c; exact ⟨rfl, fun hn => hn, fun _ hn => hn⟩
  | cons ip rest ih =>
    intro c
    rw [List.foldl_cons]
    obtain ⟨hsR, hpR, haR⟩ := ih (recordInUseIP c ip fn)
    have hsf := (recordInUseIP_fields c ip fn).2.2.1
    refine ⟨by rw [hsR, hsf], ?_, ?_⟩
    · intro hn
      exact hpR (recordInUseIP_noProblem hn)
    · intro hs hn
      refine haR (by rw [hsf]; exact hs) ?_
      rw [recordInUseIP_transcript_flag_off hs]
      exact hn

end Calico

namespace Calico

theorem recordNodes_gating {env : NetEnv} :
    ∀ {nodes : List Node} {c : IPAMChecker} {cnt : Nat} {c' : IPAMChecker}
      {cnt' : Nat},
    recordNodes env c cnt nodes = .ok (c', cnt') →
    c'.showAllIPs = c.showAllIPs ∧
    (NoClass LineClass.problemIP c.transcript →
      NoClass LineClass.problemIP c'.transcript) ∧
    (c.showAllIPs = false → NoClass LineClass.allIP c.transcript →
      NoClass LineClass.allIP c'.transcript) := by
  intro nodes
  induction nodes with
  | nil =>
    intro c cnt c' cnt' h
    rw [recordNodes] at h
    obtain ⟨h3, _⟩ := Prod.ext_iff.mp (Except.ok.inj h)
    dsimp only at h3
    rw [← h3]
    exact ⟨rfl, fun hn => hn, fun _ hn => hn⟩
  | cons n0 rest ih =>
    intro c cnt c' cnt' h
    rw [recordNodes] at h
    cases hg : getNodeIPs env n0 with
    | error e => rw [hg] at h; exact Except.noConfusion h
    | ok ips =>
      rw [hg] at h
      dsimp only at h
      obtain ⟨hsR, hpR, haR⟩ := ih h
      obtain ⟨hsF, hpF, haF⟩ := foldl_recordInUseIP_gating (nodeLabel n0) ips c
      refine ⟨by rw [hsR, hsF], fun hn => hpR (hpF hn), ?_⟩
      intro hs hn
      exact haR (by rw [hsF]; exact hs) (haF hs hn)

theorem recordWEPs_gating {env : NetEnv} :
    ∀ {weps : List WorkloadEndpoint} {c : IPAMChecker} {cnt : Nat}
      {c' : IPAMChecker} {cnt' : Nat},
    recordWEPs env c cnt weps = .ok (c', cnt') →
    c'.showAllIPs = c.showAllIPs ∧
    (NoClass LineClass.problemIP c.transcript →
      NoClass LineClass.problemIP c'.transcript) ∧
    (c.showAllIPs = false → NoClass LineClass.allIP c.transcript →
      NoClass LineClass.allIP c'.transcript) := by
  intro weps
  induction weps with
  | nil =>
    intro c cnt c' cnt' h
    rw [recordWEPs] at h
    obtain ⟨h3, _⟩ := Prod.ext_iff.mp (Except.ok.inj h)
    dsimp only at h3
    rw [← h3]
    exact ⟨rfl, fun hn => hn, fun _ hn => hn⟩
  | cons w0 rest ih =>
    intro c cnt c' cnt' h
    rw [recordWEPs] at h
    cases hg : getWEPIPs env w0 with
    | error e => rw [hg] at h; exact Except.noConfusion h
    | ok ips =>
      rw [hg] at h
      dsimp only at h
      obtain ⟨hsR, hpR, haR⟩ := ih h
      obtain ⟨hsF, hpF, haF⟩ := foldl_recordInUseIP_gating (wepLabel w0) ips c
      refine ⟨by rw [hsR, hsF], fun hn => hpR (hpF hn), ?_⟩
      intro hs hn
      exact haR (by rw [hsF]; exact hs) (haF hs hn)

theorem loadPools_lines_progress {env : NetEnv} :
    ∀ {pools : List IPPool} {ls : List OutLine} {ap : List String},
    loadPools env pools = .ok (ls, ap) → ∀ l ∈ ls, l.1 = LineClass.progress := by
  intro pools
  induction pools with
  | nil =>
    intro ls ap h l hl
    simp only [loadPools, Except.ok.injEq, Prod.mk.injEq] at h
    rw [← h.1] at hl
    exact absurd hl (List.not_mem_nil l)
  | cons p rest ih =>
    intro ls ap h l hl
    simp only [loadPools] at h
    by_cases hd : p.Disabled
    · rw [if_pos hd] at h
      exact ih h l hl
    · rw [if_neg hd] at h
      cases hc : env.parsePoolCIDR p.CIDR with
      | none => rw [hc] at h; exact Except.noConfusion h
      | some cidr =>
        rw [hc] at h
        cases hrest : loadPools env rest with
        | error e => rw [hrest] at h; exact Except.noConfusion h
        | ok pr =>
          rw [hrest] at h
          dsimp only at h
          simp only [Except.ok.injEq, Prod.mk.injEq] at h
          rw [← h.1] at hl
          rcases List.mem_cons.mp hl with rfl | hl
          · rfl
          · exact ih (by rw [hrest]) l hl

end Calico

namespace Calico

theorem leakedLines_classes {ip : String} :
    ∀ {allocs : List allocation} {ls : List OutLine},
    leakedLines ip allocs = .ok ls → ∀ l ∈ ls, l.1 = LineClass.problemIP := by
  intro allocs
  induction allocs with
  | nil =>
    intro ls h l hl
    obtain rfl := (Except.ok.inj h).symm
    exact absurd hl (List.not_mem_nil l)
  | cons a rest ih =>
    intro ls h l hl
    rw [leakedLines] at h
    cases hg : a.GetAttrString with
    | none => rw [hg] at h; exact Except.noConfusion h
    | some s =>
      rw [hg] at h
      dsimp only at h
      cases hrest : leakedLines ip rest with
      | error e => rw [hrest] at h; exact Except.noConfusion h
      | ok ls2 =>
        rw [hrest] at h
        dsimp only at h
        obtain rfl := (Except.ok.inj h).symm
        rcases List.mem_cons.mp hl with rfl | hl
        · rfl
        · exact ih hrest l hl

theorem scanAllocations_classes {sp : Bool} {am : List (String × allocation)}
    {im : List (String × ownerRecord)} :
    ∀ {order : List String} {ls : List OutLine} {leaked : List String},
    scanAllocations sp am im order = .ok (ls, leaked) →
    ∀ l ∈ ls, l.1 = LineClass.problemIP := by
  intro order
  induction order with
  | nil =>
    intro ls leaked h l hl
    simp only [scanAllocations, Except.ok.injEq, Prod.mk.injEq] at h
    rw [← h.1] at hl
    exact absurd hl (List.not_mem_nil l)
  | cons ip rest ih =>
    intro ls leaked h l hl
    rw [scanAllocations] at h
    by_cases hk : mmHasKey im ip
    · rw [if_pos hk] at h
      exact ih h l hl
    · rw [if_neg hk] at h
      cases hls0 : (if sp then leakedLines ip (mmGet am ip) else Except.ok []) with
      | error e => rw [hls0] at h; exact Except.noConfusion h
      | ok ls0 =>
        rw [hls0] at h
        dsimp only at h
        cases hrest : scanAllocations sp am im rest with
        | error e => rw [hrest] at h; exact Except.noConfusion h
        | ok pr =>
          obtain ⟨rl, rlk⟩ := pr
          rw [hrest] at h
          dsimp only at h
          simp only [Except.ok.injEq, Prod.mk.injEq] at h
          rw [← h.1] at hl
          rcases List.mem_append.mp hl with hl | hl
          · by_cases hsp : sp
            · rw [if_pos hsp] at hls0
              exact leakedLines_classes hls0 l hl
            · rw [if_neg hsp] at hls0
              obtain rfl := (Except.ok.inj hls0).symm
              exact absurd hl (List.not_mem_nil l)
          · exact ih hrest l hl

theorem scanInUse_classes (env : NetEnv) (sp : Bool) (ap : List String)
    (am : List (String × allocation)) (im : List (String × ownerRecord)) :
    ∀ order : List String,
    ∀ l ∈ (scanInUse env sp ap am im order).1, l.1 = LineClass.problemIP := by
  intro order
  induction order with
  | nil => intro l hl; exact absurd hl (List.not_mem_nil l)
  | cons ip rest ih =>
    intro l hl
    rw [scanInUse] at hl
    dsimp only at hl
    by_cases h1 : mmHasKey am ip
    · rw [if_pos h1] at hl
      dsimp only at hl
      rcases List.mem_append.mp hl with hl | hl
      · by_cases hc : sp ∧ (mmGet im ip).length > 1
        · rw [if_pos hc] at hl
          obtain rfl := List.mem_singleton.mp hl
          rfl
        · rw [if_neg hc] at hl
          exact absurd hl (List.not_mem_nil l)
      · exact ih l hl
    · rw [if_neg h1] at hl
      by_cases h2 : inActivePools env ap ip
      · rw [if_pos h2] at hl
        dsimp only at hl
        rcases List.mem_append.mp hl with hl | hl
        · rcases List.mem_append.mp hl with hl | hl
          · by_cases hc : sp ∧ (mmGet im ip).length > 1
            · rw [if_pos hc] at hl
              obtain rfl := List.mem_singleton.mp hl
              rfl
            · rw [if_neg hc] at hl
              exact absurd hl (List.not_mem_nil l)
          · by_cases hsp : sp
            · rw [if_pos hsp] at hl
              obtain ⟨o, ho, rfl⟩ := List.mem_map.mp hl
              rfl
            · rw [if_neg hsp] at hl
              exact absurd hl (List.not_mem_nil l)
        · exact ih l hl
      · rw [if_neg h2] at hl
        dsimp only at hl
        rcases List.mem_append.mp hl with hl | hl
        · rcases List.mem_append.mp hl with hl | hl
          · by_cases hc : sp ∧ (mmGet im ip).length > 1
            · rw [if_pos hc] at hl
              obtain rfl := List.mem_singleton.mp hl
              rfl
            · rw [if_neg hc] at hl
              exact absurd hl (List.not_mem_nil l)
          · by_cases hsp : sp
            · rw [if_pos hsp] at hl
              obtain ⟨o, ho, rfl⟩ := List.mem_map.mp hl
              rfl
            · rw [if_neg hsp] at hl
              exact absurd hl (List.not_mem_nil l)
        · exact ih l hl

end Calico

namespace Calico

theorem NoClass_nil {cl : LineClass} : NoClass cl [] :=
  fun l hl => absurd hl (List.not_mem_nil l)

theorem NoClass_single {cl cl2 : LineClass} {s : String} (h : cl2 ≠ cl) :
    NoClass cl [(cl2, s)] := by
  intro l hl
  obtain rfl := List.mem_singleton.mp hl
  exact h

theorem NoClass_of_classes {cl cl2 : LineClass} {t : List OutLine}
    (h : ∀ l ∈ t, l.1 = cl2) (hne : cl2 ≠ cl) : NoClass cl t :=
  fun l hl => (h l hl) ▸ hne

theorem scanAllocations_sp_false {am : List (String × allocation)}
    {im : List (String × ownerRecord)} :
    ∀ order : List String, scanAllocations false am im order =
      .ok ([], order.filter (fun ip => !(mmHasKey im ip))) := by
  intro order
  induction order with
  | nil => rfl
  | cons ip rest ih =>
    rw [scanAllocations]
    by_cases hk : mmHasKey im ip
    · rw [if_pos hk, ih]
      simp [hk]
    · rw [if_neg hk]
      dsimp only
      rw [ih]
      simp only [Bool.not_eq_true] at hk
      simp [hk]

theorem scanInUse_sp_false {env : NetEnv} {ap : List String}
    {am : List (String × allocation)} {im : List (String × ownerRecord)} :
    ∀ order : List String, (scanInUse env false ap am im order).1 = [] := by
  intro order
  induction order with
  | nil => rfl
  | cons ip rest ih =>
    rw [scanInUse]
    dsimp only
    by_cases h1 : mmHasKey am ip
    · rw [if_pos h1]
      simpa using ih
    · rw [if_neg h1]
      by_cases h2 : inActivePools env ap ip
      · rw [if_pos h2]
        simpa using ih
      · rw [if_neg h2]
        simpa using ih

theorem phase5_gating {env : NetEnv} {c : IPAMChecker} {ap : List String}
    {o : CheckOutcome} (h : phase5 env c ap = Except.ok o) :
    (NoClass LineClass.allIP c.transcript →
      NoClass LineClass.allIP o.transcript) ∧
    (c.showProblemIPs = false → NoClass LineClass.problemIP c.transcript →
      NoClass LineClass.problemIP o.transcript) := by
  simp only [phase5, emitP, emit] at h
  cases hs : scanAllocations c.showProblemIPs c.allocations c.inUseIPs
      (mmKeys c.allocations) with
  | error e => rw [hs] at h; exact Except.noConfusion h
  | ok pr =>
  obtain ⟨lines1, leaked⟩ := pr
  rw [hs] at h
  dsimp only at h
  obtain rfl := (Except.ok.inj h).symm
  dsimp only
  constructor
  · intro hc
    have hl1 : NoClass LineClass.allIP lines1 :=
      NoClass_of_classes (scanAllocations_classes hs)
        (fun hcl => LineClass.noConfusion hcl)
    have hl2 : NoClass LineClass.allIP
        (scanInUse env c.showProblemIPs ap c.allocations c.inUseIPs
          (mmKeys c.inUseIPs)).1 :=
      NoClass_of_classes (scanInUse_classes env c.showProblemIPs ap
        c.allocations c.inUseIPs (mmKeys c.inUseIPs))
        (fun hcl => LineClass.noConfusion hcl)
    refine NoClass_append (NoClass_append (NoClass_append (NoClass_append
      (NoClass_append (NoClass_append (NoClass_append (NoClass_append
        (NoClass_append hc ?_) hl1) ?_) ?_) hl2) ?_) ?_) ?_) ?_
    all_goals exact NoClass_single (fun hcl => LineClass.noConfusion hcl)
  · intro hsp hc
    rw [hsp] at hs
    rw [scanAllocations_sp_false (mmKeys c.allocations)] at hs
    obtain ⟨h1, h2⟩ := Prod.ext_iff.mp (Except.ok.inj hs)
    dsimp only at h1
    have hl1 : NoClass LineClass.problemIP lines1 := by
      rw [← h1]; exact NoClass_nil
    have hl2 : NoClass LineClass.problemIP
        (scanInUse env c.showProblemIPs ap c.allocations c.inUseIPs
          (mmKeys c.inUseIPs)).1 := by
      rw [hsp, scanInUse_sp_false]
      exact NoClass_nil
    refine NoClass_append (NoClass_append (NoClass_append (NoClass_append
      (NoClass_append (NoClass_append (NoClass_append (NoClass_append
        (NoClass_append hc ?_) hl1) ?_) ?_) hl2) ?_) ?_) ?_) ?_
    all_goals exact NoClass_single (fun hcl => LineClass.noConfusion hcl)

end Calico

namespace Calico

theorem recordBlockLoop_sp {env : NetEnv} {b : AllocationBlock} :
    ∀ {l : List (Option Int)} {start : Nat} {c c' : IPAMChecker},
    recordBlockLoop env c b start l = .ok c' →
    c'.showProblemIPs = c.showProblemIPs := by
  intro l
  induction l with
  | nil =>
    intro start c c' h
    rw [recordBlockLoop] at h
    obtain rfl := Except.ok.inj h
    rfl
  | cons m rest ih =>
    intro start c c' h
    cases m with
    | none => rw [recordBlockLoop] at h; exact ih h
    | some i =>
      rw [recordBlockLoop] at h
      cases hr : recordAllocation env c b start with
      | error e => rw [hr] at h; exact Except.noConfusion h
      | ok cM =>
        rw [hr] at h
        rw [ih h, (recordAllocation_ok_inUse hr).2.2]

theorem recordBlocks_sp {env : NetEnv} :
    ∀ {blocks : List AllocationBlock} {c c' : IPAMChecker},
    recordBlocks env c blocks = .ok c' →
    c'.showProblemIPs = c.showProblemIPs := by
  intro blocks
  induction blocks with
  | nil =>
    intro c c' h
    rw [recordBlocks] at h
    obtain rfl := Except.ok.inj h
    rfl
  | cons b0 rest ih =>
    intro c c' h
    rw [recordBlocks] at h
    cases hr : recordBlockLoop env (emitP c (blockBanner b0)) b0 0 b0.Allocations with
    | error e => rw [hr] at h; exact Except.noConfusion h
    | ok c2 =>
      rw [hr] at h
      rw [ih h, recordBlockLoop_sp hr]
      rfl

theorem foldl_recordInUseIP_sp (fn : String) :
    ∀ (ips : List String) (c : IPAMChecker),
    (ips.foldl (fun acc ip => recordInUseIP acc ip fn) c).showProblemIPs =
      c.showProblemIPs := by
  intro ips
  induction ips with
  | nil => intro c; rfl
  | cons ip rest ih =>
    intro c
    rw [List.foldl_cons, ih, (recordInUseIP_fields c ip fn).2.2.2]

theorem recordNodes_sp {env : NetEnv} :
    ∀ {nodes : List Node} {c : IPAMChecker} {cnt : Nat} {c' : IPAMChecker}
      {cnt' : Nat}, recordNodes env c cnt nodes = .ok (c', cnt') →
    c'.showProblemIPs = c.showProblemIPs := by
  intro nodes
  induction nodes with
  | nil =>
    intro c cnt c' cnt' h
    rw [recordNodes] at h
    obtain ⟨h3, _⟩ := Prod.ext_iff.mp (Except.ok.inj h)
    dsimp only at h3
    rw [← h3]
  | cons n0 rest ih =>
    intro c cnt c' cnt' h
    rw [recordNodes] at h
    cases hg : getNodeIPs env n0 with
    | error e => rw [hg] at h; exact Except.noConfusion h
    | ok ips =>
      rw [hg] at h
      dsimp only at h
      rw [ih h, foldl_recordInUseIP_sp]

theorem recordWEPs_sp {env : NetEnv} :
    ∀ {weps : List WorkloadEndpoint} {c : IPAMChecker} {cnt : Nat}
      {c' : IPAMChecker} {cnt' : Nat},
    recordWEPs env c cnt weps = .ok (c', cnt') →
    c'.showProblemIPs = c.showProblemIPs := by
  intro weps
  induction weps with
  | nil =>
    intro c cnt c' cnt' h
    rw [recordWEPs] at h
    obtain ⟨h3, _⟩ := Prod.ext_iff.mp (Except.ok.inj h)
    dsimp only at h3
    rw [← h3]
  | cons w0 rest ih =>
    intro c cnt c' cnt' h
    rw [recordWEPs] at h
    cases hg : getWEPIPs env w0 with
    | error e => rw [hg] at h; exact Except.noConfusion h
    | ok ips =>
      rw [hg] at h
      dsimp only at h
      rw [ih h, foldl_recordInUseIP_sp]

theorem phase1Prelude_transcript (sa sp : Bool) (blocks : List AllocationBlock) :
    ∀ l ∈ (phase1Prelude sa sp blocks).transcript, l.1 = LineClass.progress := by
  intro l hl
  simp only [phase1Prelude, emitP, emit, NewIPAMChecker] at hl
  simp only [List.nil_append, List.cons_append, List.mem_cons,
    List.mem_singleton, List.mem_append] at hl
  rcases hl with rfl | rfl | rfl | rfl | hl
  · rfl
  · rfl
  · rfl
  · rfl
  · exact absurd hl (List.not_mem_nil l)

theorem phase1_gating {env : NetEnv} {sa sp : Bool}
    {blocks : List AllocationBlock} {c1 : IPAMChecker}
    (h : phase1 env sa sp blocks = Except.ok c1) :
    c1.showAllIPs = sa ∧ c1.showProblemIPs = sp ∧
    (NoClass LineClass.problemIP c1.transcript) ∧
    (sa = false → NoClass LineClass.allIP c1.transcript) := by
  obtain ⟨cR, hR, ha1, hi1, hsa1, hsp1⟩ := phase1_ok_inv h
  obtain ⟨hsaR, hpR, haR⟩ := recordBlocks_gating hR
  have hspR := recordBlocks_sp hR
  have hpfields := phase1Prelude_fields sa sp blocks
  have hT0 : NoClass LineClass.problemIP (phase1Prelude sa sp blocks).transcript :=
    NoClass_of_classes (phase1Prelude_transcript sa sp blocks)
      (fun hc => LineClass.noConfusion hc)
  have hA0 : NoClass LineClass.allIP (phase1Prelude sa sp blocks).transcript :=
    NoClass_of_classes (phase1Prelude_transcript sa sp blocks)
      (fun hc => LineClass.noConfusion hc)
  have hT1 : c1.transcript = (emitP (emitP cR
      (toString "IPAM blocks record " ++
        toString (mmKeys cR.allocations).length ++
        toString " allocations.")) "").transcript := by
    rw [phase1] at h
    rw [hR] at h
    dsimp only at h
    obtain rfl := (Except.ok.inj h).symm
    rfl
  refine ⟨by rw [hsa1, hsaR, hpfields.2.2.1],
    by rw [hsp1, hspR, hpfields.2.2.2], ?_, ?_⟩
  · rw [hT1]
    refine NoClass_emitP (fun hc => LineClass.noConfusion hc)
      (NoClass_emitP (fun hc => LineClass.noConfusion hc) ?_)
    exact hpR hT0
  · intro hsa
    rw [hT1]
    refine NoClass_emitP (fun hc => LineClass.noConfusion hc)
      (NoClass_emitP (fun hc => LineClass.noConfusion hc) ?_)
    exact haR (by rw [hpfields.2.2.1]; exact hsa) hA0

end Calico

namespace Calico

theorem phase2_gating {env : NetEnv} {c : IPAMChecker} {pools : List IPPool}
    {c2 : IPAMChecker} {ap : List String}
    (h : phase2 env c pools = Except.ok (c2, ap)) :
    (NoClass LineClass.allIP c.transcript →
      NoClass LineClass.allIP c2.transcript) ∧
    (NoClass LineClass.problemIP c.transcript →
      NoClass LineClass.problemIP c2.transcript) := by
  simp only [phase2, emitP, emit] at h
  cases hl : loadPools env pools with
  | error e => rw [hl] at h; exact Except.noConfusion h
  | ok pr =>
    obtain ⟨ls, ap2⟩ := pr
    rw [hl] at h
    dsimp only at h
    simp only [Except.ok.injEq, Prod.mk.injEq] at h
    obtain ⟨hc2, hap⟩ := h
    rw [← hc2]
    dsimp only
    constructor <;> intro hc
    · refine NoClass_append (NoClass_append (NoClass_append (NoClass_append hc ?_)
        (NoClass_of_classes (loadPools_lines_progress hl)
          (fun hcl => LineClass.noConfusion hcl))) ?_) ?_
      all_goals exact NoClass_single (fun hcl => LineClass.noConfusion hcl)
    · refine NoClass_append (NoClass_append (NoClass_append (NoClass_append hc ?_)
        (NoClass_of_classes (loadPools_lines_progress hl)
          (fun hcl => LineClass.noConfusion hcl))) ?_) ?_
      all_goals exact NoClass_single (fun hcl => LineClass.noConfusion hcl)

theorem phase3_gating {env : NetEnv} {c : IPAMChecker} {nodes : List Node}
    {c3 : IPAMChecker} (h : phase3 env c nodes = Except.ok c3) :
    c3.showAllIPs = c.showAllIPs ∧ c3.showProblemIPs = c.showProblemIPs ∧
    (NoClass LineClass.problemIP c.transcript →
      NoClass LineClass.problemIP c3.transcript) ∧
    (c.showAllIPs = false → NoClass LineClass.allIP c.transcript →
      NoClass LineClass.allIP c3.transcript) := by
  simp only [phase3] at h
  cases hr : recordNodes env (emitP c "Loading all nodes.") 0 nodes with
  | error e => rw [hr] at h; exact Except.noConfusion h
  | ok pr =>
    rw [hr] at h
    dsimp only at h
    obtain rfl := (Except.ok.inj h).symm
    have hr2 : recordNodes env (emitP c "Loading all nodes.") 0 nodes =
        .ok (pr.1, pr.2) := hr
    obtain ⟨hsR, hpR, haR⟩ := recordNodes_gating hr2
    have hspR := recordNodes_sp hr2
    refine ⟨by show pr.1.showAllIPs = c.showAllIPs; rw [hsR]; rfl,
      by show pr.1.showProblemIPs = c.showProblemIPs; rw [hspR]; rfl, ?_, ?_⟩
    · intro hc
      refine NoClass_emitP (fun hcl => LineClass.noConfusion hcl)
        (NoClass_emitP (fun hcl => LineClass.noConfusion hcl) ?_)
      exact hpR (NoClass_emitP (fun hcl => LineClass.noConfusion hcl) hc)
    · intro hs hc
      refine NoClass_emitP (fun hcl => LineClass.noConfusion hcl)
        (NoClass_emitP (fun hcl => LineClass.noConfusion hcl) ?_)
      exact haR hs (NoClass_emitP (fun hcl => LineClass.noConfusion hcl) hc)

theorem phase4_gating {env : NetEnv} {c : IPAMChecker}
    {weps : List WorkloadEndpoint} {c4 : IPAMChecker}
    (h : phase4 env c weps = Except.ok c4) :
    c4.showAllIPs = c.showAllIPs ∧ c4.showProblemIPs = c.showProblemIPs ∧
    (NoClass LineClass.problemIP c.transcript →
      NoClass LineClass.problemIP c4.transcript) ∧
    (c.showAllIPs = false → NoClass LineClass.allIP c.transcript →
      NoClass LineClass.allIP c4.transcript) := by
  simp only [phase4] at h
  cases hr : recordWEPs env (emitP c "Loading all workload endpoints.") 0 weps with
  | error e => rw [hr] at h; exact Except.noConfusion h
  | ok pr =>
    rw [hr] at h
    dsimp only at h
    obtain rfl := (Except.ok.inj h).symm
    have hr2 : recordWEPs env (emitP c "Loading all workload endpoints.") 0 weps =
        .ok (pr.1, pr.2) := hr
    obtain ⟨hsR, hpR, haR⟩ := recordWEPs_gating hr2
    have hspR := recordWEPs_sp hr2
    refine ⟨by show pr.1.showAllIPs = c.showAllIPs; rw [hsR]; rfl,
      by show pr.1.showProblemIPs = c.showProblemIPs; rw [hspR]; rfl, ?_, ?_⟩
    · intro hc
      refine NoClass_emitP (fun hcl => LineClass.noConfusion hcl)
        (NoClass_emitP (fun hcl => LineClass.noConfusion hcl)
          (NoClass_emitP (fun hcl => LineClass.noConfusion hcl) ?_))
      exact hpR (NoClass_emitP (fun hcl => LineClass.noConfusion hcl) hc)
    · intro hs hc
      refine NoClass_emitP (fun hcl => LineClass.noConfusion hcl)
        (NoClass_emitP (fun hcl => LineClass.noConfusion hcl)
          (NoClass_emitP (fun hcl => LineClass.noConfusion hcl) ?_))
      exact haR hs (NoClass_emitP (fun hcl => LineClass.noConfusion hcl) hc)

/-- C9 (amended): per-address output is gated by the checker's two fields —
with `showAllIPs` unset no all-address line is ever printed, and with
`showProblemIPs` unset no problem line is ever printed — but the `Check`
entry point wires `showProblemIPs := showAllFlag || showProblemFlag`, so
the two command-line flags are not independent: `--show-all-ips` also
forces the problem lines on. -/
theorem output_gating
    {env : NetEnv} {sa sp : Bool} {ds : DatastoreResults} {o : CheckOutcome}
    (h : checkIPAM env sa sp ds = Except.ok o) :
    (sa = false → NoClass LineClass.allIP o.transcript) ∧
    (sp = false → NoClass LineClass.problemIP o.transcript) ∧
    (∀ (f1 f2 : Bool) (ds2 : DatastoreResults),
      checkWithFlags env f1 f2 ds2 = checkIPAM env f1 (f1 || f2) ds2) := by
  obtain ⟨blocks, pools, nodes, weps, c1, c2, ap, c3, c4, hb, h1, hp, h2, hn, h3,
    hw, h4, h5⟩ := checkIPAM_ok_inv h
  obtain ⟨hsa1, hsp1, hT1, hA1⟩ := phase1_gating h1
  obtain ⟨hg2a, hg2p⟩ := phase2_gating h2
  obtain ⟨_, _, _, hsa2, hsp2⟩ := phase2_ok_inv h2
  obtain ⟨hsa3, hsp3, hp3, ha3⟩ := phase3_gating h3
  obtain ⟨hsa4, hsp4, hp4, ha4⟩ := phase4_gating h4
  obtain ⟨h5a, h5p⟩ := phase5_gating h5
  refine ⟨?_, ?_, fun f1 f2 ds2 => rfl⟩
  · intro hsa
    refine h5a (ha4 ?_ (ha3 ?_ (hg2a (hA1 hsa))))
    · rw [hsa3, hsa2, hsa1]; exact hsa
    · rw [hsa2, hsa1]; exact hsa
  · intro hsp
    refine h5p ?_ (hp4 (hp3 (hg2p hT1)))
    rw [hsp4, hsp3, hsp2, hsp1]
    exact hsp

end Calico

namespace Calico

/-! ## Deterministic attribute rendering and order-insensitive counts -/

theorem mapGet_cons (k' : String) (v : String) (t : List (String × String))
    (k : String) :
    mapGet ((k', v) :: t) k = if k' == k then v else mapGet t k := by
  by_cases hk : k' == k <;> simp [mapGet, List.find?, hk]

theorem mapGet_perm :
    ∀ {l1 l2 : List (String × String)}, l1.Perm l2 →
    (l1.map Prod.fst).Nodup → ∀ k, mapGet l1 k = mapGet l2 k := by
  intro l1 l2 hperm
  induction hperm with
  | nil => intro _ k; rfl
  | cons x t ih =>
    intro hnd k
    obtain ⟨x1, x2⟩ := x
    rw [mapGet_cons, mapGet_cons]
    by_cases hk : x1 == k
    · simp [hk]
    · simp only [hk, Bool.false_eq_true, if_false]
      exact ih (by simpa using (List.nodup_cons.mp (by simpa using hnd)).2) k
  | swap x y t =>
    intro hnd k
    obtain ⟨x1, x2⟩ := x
    obtain ⟨y1, y2⟩ := y
    have hxy : y1 ≠ x1 := by
      simp only [List.map_cons, List.nodup_cons, List.mem_cons] at hnd
      exact fun hc => hnd.1 (Or.inl hc)
    rw [mapGet_cons, mapGet_cons, mapGet_cons, mapGet_cons]
    by_cases h1 : y1 == k <;> by_cases h2 : x1 == k
    · exact absurd ((eq_of_beq h1).trans (eq_of_beq h2).symm) hxy
    · simp [h1, h2]
    · simp [h1, h2]
    · simp [h1, h2]
  | trans h12 h23 ih1 ih2 =>
    intro hnd k
    rw [ih1 hnd k]
    exact ih2 ((h12.map Prod.fst).nodup_iff.mp hnd) k

theorem sortedSecondaryKeys_sorted (attrs : AllocationAttribute) :
    List.Sorted (fun a b : String => a ≤ b) (sortedSecondaryKeys attrs) :=
  List.sorted_insertionSort _ _

theorem sortedSecondaryKeys_perm (attrs : AllocationAttribute) :
    (sortedSecondaryKeys attrs).Perm (attrs.AttrSecondary.map Prod.fst) :=
  List.perm_insertionSort _ _

theorem sortedSecondaryKeys_congr {p : Option String}
    {l1 l2 : List (String × String)} (hperm : l1.Perm l2) :
    sortedSecondaryKeys { AttrPrimary := p, AttrSecondary := l1 } =
      sortedSecondaryKeys { AttrPrimary := p, AttrSecondary := l2 } := by
  simp only [sortedSecondaryKeys]
  refine List.eq_of_perm_of_sorted ?_
    (List.sorted_insertionSort _ _) (List.sorted_insertionSort _ _)
  exact ((List.perm_insertionSort _ _).trans (hperm.map Prod.fst)).trans
    (List.perm_insertionSort _ _).symm

theorem formatAttrs_perm {p : Option String} {l1 l2 : List (String × String)}
    (hperm : l1.Perm l2) (hnd : (l1.map Prod.fst).Nodup) :
    formatAttrs { AttrPrimary := p, AttrSecondary := l1 } =
      formatAttrs { AttrPrimary := p, AttrSecondary := l2 } := by
  rw [formatAttrs, formatAttrs]
  dsimp only
  rw [sortedSecondaryKeys_congr hperm]
  congr 2
  refine List.map_congr_left ?_
  intro k hk
  rw [mapGet_perm hperm hnd k]

end Calico

namespace Calico

theorem leakedLines_error_iff {ip : String} :
    ∀ {allocs : List allocation},
    (∃ e, leakedLines ip allocs = .error e) ↔
      ∃ a ∈ allocs, a.GetAttrString = none := by
  intro allocs
  induction allocs with
  | nil =>
    constructor
    · rintro ⟨e, he⟩; exact Except.noConfusion he
    · rintro ⟨a, ha, _⟩; exact absurd ha (List.not_mem_nil a)
  | cons a rest ih =>
    rw [leakedLines]
    cases hg : a.GetAttrString with
    | none =>
      constructor
      · rintro ⟨e, he⟩; exact ⟨a, List.mem_cons_self .., hg⟩
      · rintro _; exact ⟨CheckError.panic, rfl⟩
    | some s =>
      dsimp only
      cases hrest : leakedLines ip rest with
      | error e =>
        constructor
        · rintro _
          obtain ⟨a2, ha2, hga2⟩ := ih.mp ⟨e, hrest⟩
          exact ⟨a2, List.mem_cons_of_mem _ ha2, hga2⟩
        · rintro _; exact ⟨e, rfl⟩
      | ok ls =>
        constructor
        · rintro ⟨e, he⟩; exact Except.noConfusion he
        · rintro ⟨a2, ha2, hga2⟩
          rcases List.mem_cons.mp ha2 with rfl | ha2
          · rw [hg] at hga2; exact Option.noConfusion hga2
          · obtain ⟨e, he⟩ := ih.mpr ⟨a2, ha2, hga2⟩
            rw [he] at hrest
            exact Except.noConfusion hrest

theorem leakedLines_error_panic {ip : String} :
    ∀ {allocs : List allocation} {e : CheckError},
    leakedLines ip allocs = .error e → e = CheckError.panic := by
  intro allocs
  induction allocs with
  | nil => intro e h; exact Except.noConfusion h
  | cons a rest ih =>
    intro e h
    rw [leakedLines] at h
    cases hg : a.GetAttrString with
    | none => rw [hg] at h; exact (Except.error.inj h).symm
    | some s =>
      rw [hg] at h
      dsimp only at h
      cases hrest : leakedLines ip rest with
      | error e2 =>
        rw [hrest] at h
        exact (Except.error.inj h).symm.trans (ih hrest)
      | ok ls => rw [hrest] at h; exact Except.noConfusion h

theorem scanAllocations_error_iff {sp : Bool} {am : List (String × allocation)}
    {im : List (String × ownerRecord)} :
    ∀ {order : List String},
    (∃ e, scanAllocations sp am im order = .error e) ↔
      (sp = true ∧ ∃ ip ∈ order, mmHasKey im ip = false ∧
        ∃ a ∈ mmGet am ip, a.GetAttrString = none) := by
  intro order
  induction order with
  | nil =>
    constructor
    · rintro ⟨e, he⟩; exact Except.noConfusion he
    · rintro ⟨_, ip, hip, _⟩; exact absurd hip (List.not_mem_nil ip)
  | cons ip rest ih =>
    rw [scanAllocations]
    by_cases hk : mmHasKey im ip
    · rw [if_pos hk]
      constructor
      · intro he
        obtain ⟨hsp, ip2, hip2, hk2, ha⟩ := ih.mp he
        exact ⟨hsp, ip2, List.mem_cons_of_mem _ hip2, hk2, ha⟩
      · rintro ⟨hsp, ip2, hip2, hk2, ha⟩
        rcases List.mem_cons.mp hip2 with rfl | hip2
        · rw [hk] at hk2; exact Bool.noConfusion hk2
        · exact ih.mpr ⟨hsp, ip2, hip2, hk2, ha⟩
    · rw [if_neg hk]
      by_cases hsp : sp
      · rw [if_pos hsp]
        cases hll : leakedLines ip (mmGet am ip) with
        | error e =>
          constructor
          · intro _
            obtain ⟨a, ha, hga⟩ := leakedLines_error_iff.mp ⟨e, hll⟩
            exact ⟨hsp, ip, List.mem_cons_self .., Bool.not_eq_true _ ▸
              (Bool.not_eq_true _).symm ▸ (by simpa using hk), a, ha, hga⟩
          · rintro _; exact ⟨e, rfl⟩
        | ok ls =>
          dsimp only
          cases hrest : scanAllocations sp am im rest with
          | error e =>
            constructor
            · intro _
              obtain ⟨hsp2, ip2, hip2, hk2, ha⟩ := ih.mp ⟨e, hrest⟩
              exact ⟨hsp2, ip2, List.mem_cons_of_mem _ hip2, hk2, ha⟩
            · rintro _; exact ⟨e, rfl⟩
          | ok pr =>
            constructor
            · rintro ⟨e, he⟩; exact Except.noConfusion he
            · rintro ⟨hsp2, ip2, hip2, hk2, ha⟩
              rcases List.mem_cons.mp hip2 with rfl | hip2
              · obtain ⟨e, he⟩ := leakedLines_error_iff.mpr ha
                rw [he] at hll
                exact Except.noConfusion hll
              · obtain ⟨e, he⟩ := ih.mpr ⟨hsp2, ip2, hip2, hk2, ha⟩
                rw [he] at hrest
                exact Except.noConfusion hrest
      · rw [if_neg hsp]
        dsimp only
        cases hrest : scanAllocations sp am im rest with
        | error e =>
          constructor
          · intro _
            obtain ⟨hsp2, _⟩ := ih.mp ⟨e, hrest⟩
            exact absurd hsp2 hsp
          · rintro ⟨hsp2, _⟩; exact absurd hsp2 hsp
        | ok pr =>
          constructor
          · rintro ⟨e, he⟩; exact Except.noConfusion he
          · rintro ⟨hsp2, _⟩; exact absurd hsp2 hsp

end Calico

namespace Calico

theorem scanAllocations_error_panic {sp : Bool} {am : List (String × allocation)}
    {im : List (String × ownerRecord)} :
    ∀ {order : List String} {e : CheckError},
    scanAllocations sp am im order = .error e → e = CheckError.panic := by
  intro order
  induction order with
  | nil => intro e h; exact Except.noConfusion h
  | cons ip rest ih =>
    intro e h
    rw [scanAllocations] at h
    by_cases hk : mmHasKey im ip
    · rw [if_pos hk] at h
      exact ih h
    · rw [if_neg hk] at h
      cases hll : (if sp then leakedLines ip (mmGet am ip) else Except.ok []) with
      | error e2 =>
        rw [hll] at h
        have he2 : e2 = CheckError.panic := by
          by_cases hsp : sp
          · rw [if_pos hsp] at hll
            exact leakedLines_error_panic hll
          · rw [if_neg hsp] at hll
            exact Except.noConfusion hll
        exact (Except.error.inj h).symm.trans he2
      | ok ls =>
        rw [hll] at h
        dsimp only at h
        cases hrest : scanAllocations sp am im rest with
        | error e2 =>
          rw [hrest] at h
          exact (Except.error.inj h).symm.trans (ih hrest)
        | ok pr => rw [hrest] at h; exact Except.noConfusion h

theorem scan_counts_perm (env : NetEnv) (sp : Bool) (ap : List String)
    (am : List (String × allocation)) (im : List (String × ownerRecord))
    {o1 o2 u1 u2 : List String} (ho : o1.Perm o2) (hu : u1.Perm u2) :
    Except.map (fun r => r.2.length) (scanAllocations sp am im o1) =
      Except.map (fun r => r.2.length) (scanAllocations sp am im o2) ∧
    (scanInUse env sp ap am im u1).2.1.length =
      (scanInUse env sp ap am im u2).2.1.length ∧
    (scanInUse env sp ap am im u1).2.2.length =
      (scanInUse env sp ap am im u2).2.2.length := by
  refine ⟨?_, ?_, ?_⟩
  · cases h1 : scanAllocations sp am im o1 with
    | error e1 =>
      obtain ⟨hsp, ip, hip, hk, ha⟩ := scanAllocations_error_iff.mp ⟨e1, h1⟩
      obtain ⟨e2, h2⟩ := scanAllocations_error_iff.mpr
        ⟨hsp, ip, ho.mem_iff.mp hip, hk, ha⟩
      rw [h2, scanAllocations_error_panic h1, scanAllocations_error_panic h2]
    | ok pr1 =>
      cases h2 : scanAllocations sp am im o2 with
      | error e2 =>
        obtain ⟨hsp, ip, hip, hk, ha⟩ := scanAllocations_error_iff.mp ⟨e2, h2⟩
        obtain ⟨e1, h1b⟩ := scanAllocations_error_iff.mpr
          ⟨hsp, ip, ho.mem_iff.mpr hip, hk, ha⟩
        rw [h1b] at h1
        exact Except.noConfusion h1
      | ok pr2 =>
        obtain ⟨ls1, lk1⟩ := pr1
        obtain ⟨ls2, lk2⟩ := pr2
        have hlk1 := scanAllocations_ok h1
        have hlk2 := scanAllocations_ok h2
        simp only [Except.map]
        rw [hlk1, hlk2]
        exact congrArg _ (ho.filter _).length_eq
  · rw [(scanInUse_spec env sp ap am im u1).1, (scanInUse_spec env sp ap am im u2).1]
    exact (hu.filter _).length_eq
  · rw [(scanInUse_spec env sp ap am im u1).2, (scanInUse_spec env sp ap am im u2).2]
    exact (hu.filter _).length_eq

/-- C7: attribute rendering sorts the secondary keys and is insensitive to
the secondary map's entry order, and the classification counts (leaked,
non-Calico, missing-allocation — hence the `numProblems` total) are the
same for any two enumeration orders of the two indexes' keys, so repeated
runs on the same snapshot report identical counts and identical attribute
strings. -/
theorem deterministic_rendering_and_counts :
    (∀ attrs : AllocationAttribute,
      List.Sorted (fun a b : String => a ≤ b) (sortedSecondaryKeys attrs) ∧
      (sortedSecondaryKeys attrs).Perm (attrs.AttrSecondary.map Prod.fst)) ∧
    (∀ (p : Option String) (l1 l2 : List (String × String)),
      l1.Perm l2 → (l1.map Prod.fst).Nodup →
      formatAttrs { AttrPrimary := p, AttrSecondary := l1 } =
        formatAttrs { AttrPrimary := p, AttrSecondary := l2 }) ∧
    (∀ (env : NetEnv) (sp : Bool) (ap : List String)
      (am : List (String × allocation)) (im : List (String × ownerRecord))
      (o1 o2 u1 u2 : List String), o1.Perm o2 → u1.Perm u2 →
      Except.map (fun r => r.2.length) (scanAllocations sp am im o1) =
        Except.map (fun r => r.2.length) (scanAllocations sp am im o2) ∧
      (scanInUse env sp ap am im u1).2.1.length =
        (scanInUse env sp ap am im u2).2.1.length ∧
      (scanInUse env sp ap am im u1).2.2.length =
        (scanInUse env sp ap am im u2).2.2.length) :=
  ⟨fun attrs => ⟨sortedSecondaryKeys_sorted attrs, sortedSecondaryKeys_perm attrs⟩,
   fun _ _ _ hperm hnd => formatAttrs_perm hperm hnd,
   fun env sp ap am im _ _ _ _ ho hu => scan_counts_perm env sp ap am im ho hu⟩

end Calico

namespace Calico

/-! ## Closed runs on concrete snapshots -/

/-- A block with one allocated ordinal (attribute index 0) whose address
(`blk#0` under `envA`) nothing uses: a leaked address. -/
def wBlock : AllocationBlock :=
  { CIDR := "blk", Affinity := some "host:a",
    Allocations := [some 0, none],
    Attributes := [{ AttrPrimary := some "h",
                     AttrSecondary := [("b", "2"), ("a", "1")] }] }

/-- A block whose single allocation carries the reserved-for-Windows
primary tag, so recording it also marks `rsv#0` in use. -/
def rBlock : AllocationBlock :=
  { CIDR := "rsv", Affinity := none,
    Allocations := [some 0],
    Attributes := [{ AttrPrimary := some WindowsReservedHandle,
                     AttrSecondary := [] }] }

/-- A snapshot exercising all three problem categories: `blk#0` leaked,
`10.0.0.9` in use inside the enabled pool but unallocated (missing
allocation), `192.168.9.9` and `10.0.0.7` in use outside every enabled
pool (`10.0.0.7` lies only in the disabled pool), and `rsv#0` reserved. -/
def wDS : DatastoreResults :=
  { blocksResult := .ok [wBlock, rBlock],
    poolsResult := .ok
      [ { CIDR := "10.0.0.9", Disabled := false },
        { CIDR := "10.0.0.7", Disabled := true } ],
    nodesResult := .ok
      [ { Name := "n1",
          Spec := { IPv4VXLANTunnelAddr := "10.0.0.9", Wireguard := none,
                    BGP := none } } ],
    wepsResult := .ok
      [ { Namespace := "ns", Name := "w1",
          IPNetworks := ["192.168.9.9", "10.0.0.7"] } ] }

/-- The outcome of the verbose run on `wDS`. -/
def wOut : CheckOutcome := (checkIPAM envA true true wDS).toOption.getD default

theorem wRun : checkIPAM envA true true wDS = Except.ok wOut := rfl

/-- The outcome of the quiet run on `wDS` (both flags off). -/
def wOut00 : CheckOutcome :=
  (checkIPAM envA false false wDS).toOption.getD default

theorem wRun00 : checkIPAM envA false false wDS = Except.ok wOut00 := rfl

theorem classification_iff_witness :
    ("blk#0" ∈ wOut.leakedIPs ↔
      mmHasKey wOut.allocations "blk#0" = true ∧
      mmHasKey wOut.inUseIPs "blk#0" = false) ∧
    ("blk#0" ∈ wOut.nonCalicoIPs ↔
      mmHasKey wOut.inUseIPs "blk#0" = true ∧
      mmHasKey wOut.allocations "blk#0" = false ∧
      inActivePools envA wOut.activePools "blk#0" = false) ∧
    ("blk#0" ∈ wOut.missingAllocIPs ↔
      mmHasKey wOut.inUseIPs "blk#0" = true ∧
      mmHasKey wOut.allocations "blk#0" = false ∧
      inActivePools envA wOut.activePools "blk#0" = true) :=
  classification_iff wRun "blk#0" (Or.inl (by decide))

theorem numProblems_partition_witness :
    wOut.numProblems = wOut.leakedIPs.length + wOut.nonCalicoIPs.length +
      wOut.missingAllocIPs.length ∧
    wOut.leakedIPs.Nodup ∧
    ("blk#0" ∉ wOut.nonCalicoIPs ∧ "blk#0" ∉ wOut.missingAllocIPs) :=
  ⟨(numProblems_partition wRun).1, (numProblems_partition wRun).2.1,
   (numProblems_partition wRun).2.2.2.2.1 "blk#0" (by decide)⟩

theorem reserved_allocation_not_leaked_witness :
    (⟨"Reserved for Windows"⟩ : ownerRecord) ∈
      mmGet wOut.inUseIPs (envA.ordinalToIP rBlock 0) ∧
    envA.ordinalToIP rBlock 0 ∉ wOut.leakedIPs :=
  ⟨(@reserved_allocation_not_leaked envA true true wDS wOut [wBlock, rBlock]
      rBlock 0 0 { AttrPrimary := some WindowsReservedHandle, AttrSecondary := [] }
      wRun rfl (by decide) rfl rfl rfl).2.1,
   (@reserved_allocation_not_leaked envA true true wDS wOut [wBlock, rBlock]
      rBlock 0 0 { AttrPrimary := some WindowsReservedHandle, AttrSecondary := [] }
      wRun rfl (by decide) rfl rfl rfl).2.2⟩

theorem disabled_pools_excluded_witness :
    "10.0.0.7" ∈ wOut.nonCalicoIPs ∧ "10.0.0.7" ∉ wOut.missingAllocIPs :=
  (disabled_pools_excluded rfl wRun).2 "10.0.0.7" (by decide) (by decide)
    (by intro p hp hd cd hcd
        fin_cases hp
        · have hcd2 : (some "10.0.0.9" : Option String) = some cd := hcd
          obtain rfl := (Option.some.inj hcd2).symm
          decide
        · exact absurd hd (by decide))

/-- A node whose VXLAN tunnel address does not normalise. -/
def badNode : Node :=
  { Name := "nbad",
    Spec := { IPv4VXLANTunnelAddr := "bad", Wireguard := none, BGP := none } }

/-- A snapshot whose only flaw is `badNode`'s unparseable address. -/
def badNodeDS : DatastoreResults :=
  { blocksResult := .ok [], poolsResult := .ok [],
    nodesResult := .ok [badNode], wepsResult := .ok [] }

theorem parse_failure_aborts_witness :
    checkIPAM envA true true badNodeDS ≠ Except.ok default ∧
    (∃ f raw, CheckError.nodeIPParseFailed "IPv4VXLANTunnelAddr" "bad" "nbad" =
      CheckError.nodeIPParseFailed f raw badNode.Name ∧
      envA.normalise raw = none) :=
  ⟨(@parse_failure_aborts envA true true badNodeDS).2.2.1 [badNode] rfl
      ⟨badNode, List.mem_singleton.mpr rfl, _, rfl⟩ default,
   (@parse_failure_aborts envA true true badNodeDS).1 badNode _ rfl⟩

/-- A block whose marker `5` is out of range for its empty attribute
table on the non-negative side. -/
def msBlock : AllocationBlock :=
  { CIDR := "ms", Affinity := none, Allocations := [some 5], Attributes := [] }

theorem attr_index_out_of_range_soft_witness :
    (∃ s, allocation.GetAttrString { Block := msBlock, Ordinal := 0 } = some s) ∧
    allocation.GetAttrString { Block := msBlock, Ordinal := 0 } =
      some "<missing>" ∧
    (∃ c', recordAllocation envA (NewIPAMChecker true true) msBlock 0 =
      .ok c') := by
  obtain ⟨h1, h2, h3⟩ := @attr_index_out_of_range_soft msBlock 0 5
    rfl (by decide)
  exact ⟨h1, h2 (by decide), h3 envA (NewIPAMChecker true true)⟩

theorem deterministic_rendering_and_counts_witness :
    (List.Sorted (fun a b : String => a ≤ b) (sortedSecondaryKeys
      { AttrPrimary := some "h", AttrSecondary := [("b", "2"), ("a", "1")] })) ∧
    formatAttrs { AttrPrimary := some "h",
                  AttrSecondary := [("b", "2"), ("a", "1")] } =
      formatAttrs { AttrPrimary := some "h",
                    AttrSecondary := [("a", "1"), ("b", "2")] } ∧
    Except.map (fun r => r.2.length)
        (scanAllocations true [] [] ["x", "y"]) =
      Except.map (fun r => r.2.length)
        (scanAllocations true [] [] ["y", "x"]) := by
  obtain ⟨ha, hb, hc⟩ := deterministic_rendering_and_counts
  exact ⟨(ha _).1, hb (some "h") _ _ (by decide) (by decide),
    (hc envA true [] [] [] ["x", "y"] ["y", "x"] [] [] (by decide) (by decide)).1⟩

theorem output_gating_witness :
    wOut00.transcript.all (fun l => !(l.1 == LineClass.allIP)) = true ∧
    wOut00.transcript.all (fun l => !(l.1 == LineClass.problemIP)) = true := by
  have hg := output_gating (o := wOut00) wRun00
  constructor <;> rw [List.all_eq_true] <;> intro l hl
  · simpa using hg.1 rfl l hl
  · simpa using hg.2.1 rfl l hl

/-- C9 counterexample: running with `--show-all-ips` set and
`--show-problem-ips` unset still prints problem lines — the problem-line
class is not independently controlled by its own flag. -/
def p9Out : CheckOutcome :=
  (checkWithFlags envA true false wDS).toOption.getD default

theorem flags_not_independent :
    checkWithFlags envA true false wDS = Except.ok p9Out ∧
    p9Out.transcript.any (fun l => l.1 == LineClass.problemIP) = true :=
  ⟨rfl, by decide⟩

theorem findings_never_error_witness :
    ∃ o, checkIPAM envA true true wDS = Except.ok o := by
  refine findings_never_error rfl rfl rfl rfl ?_ (by decide) ?_ (by decide)
  · intro b hb m hm i hi
    fin_cases hb <;> fin_cases hm <;> simp_all
  · intro n hn
    fin_cases hn
    refine ⟨fun _ => by decide, ?_, ?_⟩
    · intro wg hwg
      exact Option.noConfusion hwg
    · intro bgp hbgp
      exact Option.noConfusion hbgp

end Calico
